import Mathlib

/-!
# Verification of the tax-app statement interpreter and FIFO realized-gain engine

Shallow embedding of `src/app/fifo.py` and `src/app/parser.py`.

Modelling conventions:
* Python `float` is embedded as `ℚ`.  Every arithmetic operation the engine
  performs (`+`, `-`, `*`, `min`, comparisons) is exact on the inputs the
  claims are about, so `ℚ` is a faithful carrier; IEEE rounding, `inf` and
  `nan` are outside the scope of this development.
* Python `dict` is embedded as an association list with insertion-order
  update semantics (`dictSet` replaces the first binding in place,
  `dictSetD` appends a fresh binding at the tail exactly like
  `d[k] = v` on a missing key).  Python `set` is embedded as a
  duplicate-free list with add-if-absent.
* `datetime.date` is embedded as a year/month/day triple ordered
  lexicographically, which is how Python orders `date` values.
* Python strings are embedded as `List Char` in the parser development.
-/

namespace TaxApp

/-- The numeric tolerance `1e-9` used by `compute_realized`
(`src/app/fifo.py`, comparisons on lines 57, 64, 67). -/
def eps : ℚ := 1 / 1000000000

/-- Embedding of `datetime.date` (only the structure and ordering the
engine needs: the comparison used by `sorted` and the `.year` accessor). -/
structure PyDate where
  year : Int
  month : Int
  day : Int
deriving DecidableEq, Repr

/-- The order on `datetime.date`: lexicographic on (year, month, day). -/
def dateLe (a b : PyDate) : Prop :=
  a.year < b.year ∨ (a.year = b.year ∧
    (a.month < b.month ∨ (a.month = b.month ∧ a.day ≤ b.day)))

instance (a b : PyDate) : Decidable (dateLe a b) := by
  unfold dateLe; infer_instance

/-- `Lot` from `src/app/fifo.py` lines 7-10. -/
structure Lot where
  qty : ℚ
  cost : ℚ
deriving DecidableEq, Repr

/-- `Realized` from `src/app/fifo.py` lines 13-16 (the RealizedAccumulator). -/
structure Realized where
  gain : ℚ
  loss : ℚ
deriving DecidableEq, Repr

/-- `WarningMsg` from `src/app/fifo.py` lines 19-22. -/
structure WarningMsg where
  symbol : String
  message : String
deriving DecidableEq, Repr

/-- `Trade` from `src/app/parser.py` lines 9-19. -/
structure Trade where
  account_id : String
  symbol : String
  name : Option String
  currency : String
  trade_date : PyDate
  side : String
  qty : ℚ
  price : ℚ
  source : String
deriving DecidableEq, Repr

/-- Python dict assignment `d[k] = v` when the key may already be present:
replaces the first (unique, for a genuine dict) binding in place, otherwise
appends at the tail, preserving insertion order. -/
def dictSet [BEq κ] (k : κ) (v : α) : List (κ × α) → List (κ × α)
  | [] => [(k, v)]
  | p :: rest => if p.1 == k then (k, v) :: rest else p :: dictSet k v rest

/-- Python `if k not in d: d[k] = v` — append a fresh binding at the tail
only when the key is absent. -/
def dictSetD [BEq κ] (k : κ) (v : α) (d : List (κ × α)) : List (κ × α) :=
  if (d.lookup k).isSome then d else d ++ [(k, v)]

/-- `_add_realized` from `src/app/fifo.py` lines 25-29. -/
def _add_realized (realized : Realized) (amount : ℚ) : Realized :=
  if 0 ≤ amount then { realized with gain := realized.gain + amount }
  else { realized with loss := realized.loss + (-amount) }

/-- Result of the lot-consumption `while` loop of a single SELL
(`src/app/fifo.py` lines 55-65).  The fields `consumed` and `discarded`
are ghost instrumentation: `consumed` sums every `take`, `discarded` sums
the residual quantity of every popped lot; neither feeds back into the
other fields. -/
structure SellResult where
  lots : List Lot
  acc : Realized
  remaining : ℚ
  consumed : ℚ
  discarded : ℚ
deriving DecidableEq, Repr

/-- The `while remaining > 1e-9 and lots:` loop of `compute_realized`
(`src/app/fifo.py` lines 57-65).  `gate` is the (per-trade constant)
condition `target_year is None or trade.trade_date.year == target_year`.

In the branch where the head lot is not popped (`lot.qty - take > eps`)
the loop necessarily terminates: `take = min remaining lot.qty` and
`lot.qty - take > eps ≥ 0` force `take = remaining`, so the new remaining
quantity is `0 ≤ eps` and the `while` condition fails.  The definition
returns directly in that branch, which is exactly the source behaviour. -/
def sellLoop (price : ℚ) (gate : Bool) :
    ℚ → List Lot → Realized → SellResult
  | remaining, [], acc =>
    { lots := [], acc := acc, remaining := remaining,
      consumed := 0, discarded := 0 }
  | remaining, lot :: rest, acc =>
    if remaining ≤ eps then
      { lots := lot :: rest, acc := acc, remaining := remaining,
        consumed := 0, discarded := 0 }
    else
      let take := min remaining lot.qty
      let acc1 := if gate then _add_realized acc ((price - lot.cost) * take)
                  else acc
      let qty1 := lot.qty - take
      let rem1 := remaining - take
      if qty1 ≤ eps then
        let r := sellLoop price gate rem1 rest acc1
        { lots := r.lots, acc := r.acc, remaining := r.remaining,
          consumed := take + r.consumed, discarded := qty1 + r.discarded }
      else
        { lots := { qty := qty1, cost := lot.cost } :: rest, acc := acc1,
          remaining := rem1, consumed := take, discarded := 0 }

/-- The mutable state of one `compute_realized` call: `positions`,
`realized`, `warnings`, `missing_cost_symbols` (`src/app/fifo.py`
lines 38-41), plus the two ghost totals accumulated from `SellResult`. -/
structure EngineState where
  positions : List (String × List Lot)
  realized : List (String × Realized)
  warnings : List WarningMsg
  missing : List String
  consumed : ℚ
  discarded : ℚ
deriving DecidableEq, Repr

/-- The year gate `target_year is None or trade.trade_date.year == target_year`
(`src/app/fifo.py` lines 60 and 81), constant for a given trade. -/
def gateOf (targetYear : Option Int) (t : Trade) : Bool :=
  match targetYear with
  | none => true
  | some y => decide (t.trade_date.year = y)

/-- The warning message built on `src/app/fifo.py` lines 70-78. -/
def fallbackWarning (sym : String) : WarningMsg :=
  { symbol := sym,
    message := "Sell quantity exceeds available lots and no year-start average cost provided. Used 0 cost for remaining shares." }

/-- One iteration of the `for trade in trades_sorted` loop of
`compute_realized` (`src/app/fifo.py` lines 44-83). -/
def processTrade (fallback_costs : List (String × ℚ))
    (target_year : Option Int) (st : EngineState) (t : Trade) : EngineState :=
  let sym := t.symbol
  -- lines 46-49: ensure a lot queue and a zero accumulator exist
  let positions := dictSetD sym [] st.positions
  let realized := dictSetD sym { gain := 0, loss := 0 } st.realized
  if t.side == "BUY" then
    -- lines 51-53
    { st with
      positions := dictSet sym
        (((positions.lookup sym).getD []) ++ [{ qty := t.qty, cost := t.price }])
        positions,
      realized := realized }
  else
    -- lines 55-65: consume lots FIFO
    let lots := (positions.lookup sym).getD []
    let acc0 := (realized.lookup sym).getD { gain := 0, loss := 0 }
    let gate := gateOf target_year t
    let r := sellLoop t.price gate t.qty lots acc0
    let positions1 := dictSet sym r.lots positions
    let realized1 := dictSet sym r.acc realized
    let consumed1 := st.consumed + r.consumed
    let discarded1 := st.discarded + r.discarded
    -- lines 67-83: fallback cost for the unmatched remainder
    if eps < r.remaining then
      let fb := fallback_costs.lookup sym
      let warnings1 := if fb.isSome then st.warnings
                       else st.warnings ++ [fallbackWarning sym]
      let missing1 := if fb.isSome then st.missing
                      else if sym ∈ st.missing then st.missing
                      else st.missing ++ [sym]
      let fbv := fb.getD 0
      let acc1 := if gate then _add_realized r.acc ((t.price - fbv) * r.remaining)
                  else r.acc
      { positions := positions1, realized := dictSet sym acc1 realized1,
        warnings := warnings1, missing := missing1,
        consumed := consumed1, discarded := discarded1 }
    else
      { positions := positions1, realized := realized1,
        warnings := st.warnings, missing := st.missing,
        consumed := consumed1, discarded := discarded1 }

/-- `positions = {sym: list(lots) for sym, lots in initial_lots.items()}`
(`src/app/fifo.py` line 38) together with the empty accumulators of
lines 39-41.  In this pure value model the lot lists are copied by value;
the object-aliasing behaviour of the source (the `Lot` objects themselves
are shared with the caller) is modelled separately by the heap engine
below. -/
def initState (initial_lots : List (String × List Lot)) : EngineState :=
  { positions := initial_lots, realized := [], warnings := [],
    missing := [], consumed := 0, discarded := 0 }

/-- The comparison `sorted(trades, key=lambda t: t.trade_date)` sorts by:
order on the `trade_date` key alone. -/
def tradeLe (a b : Trade) : Prop := dateLe a.trade_date b.trade_date

instance (a b : Trade) : Decidable (tradeLe a b) := by
  unfold tradeLe; infer_instance

/-- `trades_sorted = sorted(trades, key=lambda t: t.trade_date)`
(`src/app/fifo.py` line 43).  Python `sorted` is a stable sort by the key;
insertion sort with the lexicographic date order is a stable sort by the
same key, and a stable sort by a fixed key is extensionally unique. -/
def sortTrades (trades : List Trade) : List Trade :=
  List.insertionSort tradeLe trades

/-- `compute_realized` from `src/app/fifo.py` lines 32-85.  Returns the
whole final engine state; the Python function returns the projection
`(realized, warnings, missing_cost_symbols)`. -/
def compute_realized (trades : List Trade)
    (initial_lots : List (String × List Lot))
    (fallback_costs : List (String × ℚ))
    (target_year : Option Int) : EngineState :=
  (sortTrades trades).foldl (processTrade fallback_costs target_year)
    (initState initial_lots)

/-- Total share quantity held in a lot list. -/
def totalLots (lots : List Lot) : ℚ := (lots.map Lot.qty).sum

/-- Total share quantity held across all lot queues. -/
def totalPos (d : List (String × List Lot)) : ℚ :=
  (d.map fun p => totalLots p.2).sum

/-- Sum of the quantities of all BUY trades in a list. -/
def totalBuys (trades : List Trade) : ℚ :=
  ((trades.filter fun t => t.side == "BUY").map Trade.qty).sum

/-- Number of trades the engine treats as sells (everything except
`side == "BUY"`, see `src/app/fifo.py` line 51). -/
def numSells (trades : List Trade) : Nat :=
  (trades.filter fun t => !(t.side == "BUY")).length

/-!
## Heap model of `compute_realized`

`positions = {sym: list(lots) for sym, lots in initial_lots.items()}`
(`src/app/fifo.py` line 38) copies each *list* but shares the `Lot`
*objects* with the caller, and `lot.qty -= take` (line 62) mutates those
shared objects.  To make that observable in a pure embedding, the heap
engine tags every lot that aliases a caller object with its index in the
caller's list and mirrors each `lot.qty` write into an explicit heap of
caller-visible cells.  `lots.pop(0)` (line 65) removes a lot from the
engine's list only, never from the caller's list, so a popped shared
lot keeps its last written quantity in the heap.
-/

/-- An engine-side lot: `ref = some (sym, i)` means this is the caller's
`initial_lots[sym][i]` object, `ref = none` means it was created by a BUY
(line 52) and is invisible to the caller. -/
structure HLot where
  ref : Option (String × Nat)
  qty : ℚ
  cost : ℚ
deriving DecidableEq, Repr

/-- Engine state of the heap model; `heap` holds the current `qty` of
every caller-owned `Lot` object. -/
structure HState where
  positions : List (String × List HLot)
  realized : List (String × Realized)
  warnings : List WarningMsg
  missing : List String
  heap : List ((String × Nat) × ℚ)
deriving DecidableEq, Repr

/-- Write `lot.qty -= take` through to the caller-visible cell when the
lot is shared (`src/app/fifo.py` line 62). -/
def heapWrite (heap : List ((String × Nat) × ℚ)) (ref : Option (String × Nat))
    (v : ℚ) : List ((String × Nat) × ℚ) :=
  match ref with
  | none => heap
  | some r => dictSet r v heap

/-- The sell `while` loop of lines 57-65, heap version (same control flow
as `sellLoop`, with the `lot.qty` update mirrored into the heap). -/
def sellLoopH (price : ℚ) (gate : Bool) :
    ℚ → List HLot → Realized → List ((String × Nat) × ℚ) →
    List HLot × Realized × ℚ × List ((String × Nat) × ℚ)
  | remaining, [], acc, heap => ([], acc, remaining, heap)
  | remaining, lot :: rest, acc, heap =>
    if remaining ≤ eps then (lot :: rest, acc, remaining, heap)
    else
      let take := min remaining lot.qty
      let acc1 := if gate then _add_realized acc ((price - lot.cost) * take)
                  else acc
      let qty1 := lot.qty - take
      let rem1 := remaining - take
      let heap1 := heapWrite heap lot.ref qty1
      if qty1 ≤ eps then sellLoopH price gate rem1 rest acc1 heap1
      else ({ ref := lot.ref, qty := qty1, cost := lot.cost } :: rest, acc1,
            rem1, heap1)

/-- One trade of the `for` loop (lines 44-83), heap version. -/
def processTradeH (fallback_costs : List (String × ℚ))
    (target_year : Option Int) (st : HState) (t : Trade) : HState :=
  let sym := t.symbol
  let positions := dictSetD sym [] st.positions
  let realized := dictSetD sym { gain := 0, loss := 0 } st.realized
  if t.side == "BUY" then
    { st with
      positions := dictSet sym
        (((positions.lookup sym).getD []) ++
          [{ ref := none, qty := t.qty, cost := t.price }])
        positions,
      realized := realized }
  else
    let lots := (positions.lookup sym).getD []
    let acc0 := (realized.lookup sym).getD { gain := 0, loss := 0 }
    let gate := gateOf target_year t
    let r := sellLoopH t.price gate t.qty lots acc0 st.heap
    let positions1 := dictSet sym r.1 positions
    let realized1 := dictSet sym r.2.1 realized
    let heap1 := r.2.2.2
    if eps < r.2.2.1 then
      let fb := fallback_costs.lookup sym
      let warnings1 := if fb.isSome then st.warnings
                       else st.warnings ++ [fallbackWarning sym]
      let missing1 := if fb.isSome then st.missing
                      else if sym ∈ st.missing then st.missing
                      else st.missing ++ [sym]
      let fbv := fb.getD 0
      let acc1 := if gate then _add_realized r.2.1 ((t.price - fbv) * r.2.2.1)
                  else r.2.1
      { positions := positions1, realized := dictSet sym acc1 realized1,
        warnings := warnings1, missing := missing1, heap := heap1 }
    else
      { positions := positions1, realized := realized1,
        warnings := st.warnings, missing := st.missing, heap := heap1 }

/-- `positions = {sym: list(lots)}` in the heap model: each caller lot is
entered with a back reference, and the heap starts with every caller
cell at its original quantity. -/
def initStateH (initial_lots : List (String × List Lot)) : HState :=
  { positions := initial_lots.map fun p =>
      (p.1, p.2.enum.map fun q =>
        { ref := some (p.1, q.1), qty := q.2.qty, cost := q.2.cost }),
    realized := [], warnings := [], missing := [],
    heap := initial_lots.foldr (fun p acc =>
      (p.2.enum.map fun q => ((p.1, q.1), q.2.qty)) ++ acc) [] }

/-- `compute_realized`, heap version. -/
def compute_realizedH (trades : List Trade)
    (initial_lots : List (String × List Lot))
    (fallback_costs : List (String × ℚ))
    (target_year : Option Int) : HState :=
  (sortTrades trades).foldl (processTradeH fallback_costs target_year)
    (initStateH initial_lots)

/-- What the caller's `initial_lots` structure looks like after a
`compute_realized` call: the same lists of the same `Lot` objects, each
object carrying the last quantity the engine wrote to it. -/
def callerView (initial_lots : List (String × List Lot))
    (heap : List ((String × Nat) × ℚ)) : List (String × List Lot) :=
  initial_lots.map fun p =>
    (p.1, p.2.enum.map fun q =>
      { qty := (heap.lookup (p.1, q.1)).getD q.2.qty, cost := q.2.cost })

/-!
## Parser embedding (`src/app/parser.py`)

Strings are `List Char`.  The compiled regular expressions of the second
and third Huatai passes and of the Futu interpreter are evaluated by the
Python `re` library, an external collaborator of the repository code;
they are modelled as matcher parameters (`List Char → Option <groups>`),
universally quantified in the theorems and constrained only by facts the
pattern text itself guarantees (for example that a currency group can
only be one of the five literal alternatives).  Simple patterns that the
concrete counterexamples exercise are embedded directly.  Python `\d`,
`\s`, `str.isspace` and `str.isdigit` accept some Unicode characters
beyond the sets embedded here; none of the statements exercised by the
claims contain them. -/

/-- The whitespace set of `str.strip()`, `str.split()` and `\s`
(ASCII part plus NEL and NBSP). -/
def pyIsSpace (c : Char) : Bool :=
  c == ' ' || c == '\t' || c == '\n' || c == '\x0b' || c == '\x0c' ||
  c == '\r' || c == '\x1c' || c == '\x1d' || c == '\x1e' || c == '\x1f' ||
  c == '\x85' || c == '\xa0'

/-- Python `str.strip()` with no argument. -/
def pyStrip (l : List Char) : List Char :=
  ((l.dropWhile pyIsSpace).reverse.dropWhile pyIsSpace).reverse

/-- Helper for `pySplit`; the accumulator holds the current word
reversed. -/
def pySplitAux : List Char → List Char → List (List Char)
  | acc, [] => if acc.isEmpty then [] else [acc.reverse]
  | acc, c :: rest =>
    if pyIsSpace c then
      if acc.isEmpty then pySplitAux [] rest
      else acc.reverse :: pySplitAux [] rest
    else pySplitAux (c :: acc) rest

/-- Python `str.split()` with no argument: split on whitespace runs,
dropping empty tokens. -/
def pySplit (l : List Char) : List (List Char) := pySplitAux [] l

/-- Helper for `pySplitChar`. -/
def pySplitCharAux (sep : Char) : List Char → List Char → List (List Char)
  | acc, [] => [acc.reverse]
  | acc, c :: rest =>
    if c == sep then acc.reverse :: pySplitCharAux sep [] rest
    else pySplitCharAux sep (c :: acc) rest

/-- Python `str.split(sep)` for a one-character separator (the source
only splits on `"-"`, `"/"` and `":"`): empty tokens are kept. -/
def pySplitChar (sep : Char) (l : List Char) : List (List Char) :=
  pySplitCharAux sep [] l

/-- The line-boundary characters of `str.splitlines()`. -/
def isLineBoundary (c : Char) : Bool :=
  c == '\n' || c == '\r' || c == '\x0b' || c == '\x0c' || c == '\x1c' ||
  c == '\x1d' || c == '\x1e' || c == '\x85' || c == '\u2028' || c == '\u2029'

/-- Helper for `pySplitlines`; `\r\n` counts as a single boundary. -/
def pySplitlinesAux : List Char → List Char → List (List Char)
  | acc, [] => if acc.isEmpty then [] else [acc.reverse]
  | acc, '\r' :: '\n' :: rest => acc.reverse :: pySplitlinesAux [] rest
  | acc, c :: rest =>
    if isLineBoundary c then acc.reverse :: pySplitlinesAux [] rest
    else pySplitlinesAux (c :: acc) rest

/-- Python `str.splitlines()`: lines without their terminators, no
trailing empty line for a terminal newline. -/
def pySplitlines (l : List Char) : List (List Char) := pySplitlinesAux [] l

/-- Python `str.find(sub)`: index of the first occurrence, `None` here
standing for the `-1` of the source. -/
def strFind (hay needle : List Char) : Option Nat :=
  if needle.isPrefixOf hay then some 0
  else
    match hay with
    | [] => none
    | _ :: t => (strFind t needle).map (· + 1)

/-- Python `sub in s`. -/
def strContains (hay needle : List Char) : Bool := (strFind hay needle).isSome

/-- `_extract_section_lines` from `src/app/parser.py` lines 71-82. -/
def _extract_section_lines (text start_marker : List Char)
    (end_markers : List (List Char)) : List (List Char) :=
  match strFind text start_marker with
  | none => []
  | some start_idx =>
    let sub := text.drop (start_idx + start_marker.length)
    let end_idx := end_markers.foldl
      (fun e m =>
        match strFind sub m with
        | some idx => min e idx
        | none => e) sub.length
    let sec := sub.take end_idx
    ((pySplitlines sec).map pyStrip).filter fun l => !l.isEmpty

/-- Value of an ASCII digit run. -/
def digitsToNat (l : List Char) : Nat :=
  l.foldl (fun n c => n * 10 + (c.toNat - 48)) 0

/-- Python `int(str)` restricted to an optional sign followed by ASCII
digits (the underscore and whitespace forms of the full grammar are not
exercised by the statements). -/
def pyParseInt (l : List Char) : Option Int :=
  match l with
  | '+' :: rest =>
    if !rest.isEmpty && rest.all Char.isDigit then some (digitsToNat rest)
    else none
  | '-' :: rest =>
    if !rest.isEmpty && rest.all Char.isDigit then some (-(digitsToNat rest : Int))
    else none
  | _ =>
    if !l.isEmpty && l.all Char.isDigit then some (digitsToNat l) else none

/-- Exponent suffix of the `float` grammar. -/
def parseExp (mant : ℚ) (r : List Char) : Option ℚ :=
  let p : Bool × List Char :=
    match r with
    | '+' :: r2 => (false, r2)
    | '-' :: r2 => (true, r2)
    | r2 => (false, r2)
  if p.2.isEmpty || !(p.2.all Char.isDigit) then none
  else if p.1 then some (mant / (10 : ℚ) ^ digitsToNat p.2)
  else some (mant * (10 : ℚ) ^ digitsToNat p.2)

/-- Python `float(str)` restricted to finite decimal literals
`[+-]? (digits [. digits*] | . digits+) [(e|E) [+-]? digits+]`;
`inf`/`nan` have no image in `ℚ` and the underscore forms are not
exercised by the statements. -/
def parseFloatCore (l : List Char) : Option ℚ :=
  let sl : ℚ × List Char :=
    match l with
    | '+' :: r => (1, r)
    | '-' :: r => (-1, r)
    | r => (1, r)
  let ip := sl.2.takeWhile Char.isDigit
  let l1 := sl.2.dropWhile Char.isDigit
  let fl : List Char × List Char :=
    match l1 with
    | '.' :: r => (r.takeWhile Char.isDigit, r.dropWhile Char.isDigit)
    | r => ([], r)
  if ip.isEmpty && (l1.head? ≠ some '.' || fl.1.isEmpty) then none
  else
    let mant : ℚ :=
      sl.1 * ((digitsToNat ip : ℚ) + (digitsToNat fl.1 : ℚ) / (10 : ℚ) ^ fl.1.length)
    match fl.2 with
    | [] => some mant
    | 'e' :: r => parseExp mant r
    | 'E' :: r => parseExp mant r
    | _ => none

/-- `_parse_number` from `src/app/parser.py` lines 31-42. -/
def _parse_number (token : List Char) : Option ℚ :=
  let t1 := pyStrip (token.filter fun c => !(c == ','))
  if t1.isEmpty then none
  else
    let neg := decide (t1.head? = some '(') && decide (t1.getLast? = some ')')
    let core := if neg then (t1.drop 1).dropLast else t1
    match parseFloatCore core with
    | none => none
    | some v => some (if neg then -v else v)

/-- Day count of `datetime.date`. -/
def pyDaysInMonth (y m : Int) : Int :=
  if m = 2 then
    if y % 4 = 0 ∧ (y % 100 ≠ 0 ∨ y % 400 = 0) then 29 else 28
  else if m = 4 ∨ m = 6 ∨ m = 9 ∨ m = 11 then 30
  else 31

/-- `datetime.date(y, m, d)`: `none` models the `ValueError` the source
catches. -/
def mkPyDate (y m d : Int) : Option PyDate :=
  if 1 ≤ y ∧ y ≤ 9999 ∧ 1 ≤ m ∧ m ≤ 12 ∧ 1 ≤ d ∧ d ≤ pyDaysInMonth y m then
    some { year := y, month := m, day := d }
  else none

/-- `_parse_date` from `src/app/parser.py` lines 45-53; `sep` is `'-'`
for the default format and `'/'` for `"%Y/%m/%d"`. -/
def _parse_date (token : List Char) (sep : Char) : Option PyDate :=
  match pySplitChar sep token with
  | [ys, ms, ds] =>
    match pyParseInt ys, pyParseInt ms, pyParseInt ds with
    | some y, some m, some d => mkPyDate y m d
    | _, _, _ => none
  | _ => none

/-- `_infer_currency_from_code` from `src/app/parser.py` lines 85-90. -/
def _infer_currency_from_code (code : List Char) : Option String :=
  if List.isSuffixOf (":HK".toList) code then some ("HKD")
  else if List.isSuffixOf (":US".toList) code then some ("USD")
  else none

/-- `_normalize_symbol` from `src/app/parser.py` lines 93-95:
`code.split(":")[0]` with every `*` removed. -/
def _normalize_symbol (code : List Char) : List Char :=
  (code.takeWhile fun c => !(c == ':')).filter fun c => !(c == '*')

/-- `re.match(r"^\d{8,}\s", line)` as a Boolean: digits are not
whitespace, so the pattern matches exactly when the maximal leading
ASCII-digit run has length at least 8 and is followed by a whitespace
character. -/
def huataiRefOk (line : List Char) : Bool :=
  let ds := line.takeWhile Char.isDigit
  decide (8 ≤ ds.length) &&
    match (line.drop ds.length).head? with
    | some c => pyIsSpace c
    | none => false

/-- The `side_map` dict of `src/app/parser.py` lines 131-137. -/
def huataiSideMap (s : List Char) : Option String :=
  if s = "买入".toList ∨ s = "买入开仓".toList then some ("BUY")
  else if s = "卖出".toList ∨ s = "沽出".toList ∨ s = "卖出平仓".toList then
    some ("SELL")
  else none

/-- The body of one accepted line of the first Huatai pass, after the
reference-number check, applied to the `split()` columns
(`src/app/parser.py` lines 115-153).  The sequential `None` checks of
the source are rendered as chained matches; `code` is `parts[3]`. -/
def huataiTradeParts (account_id : String) (parts : List (List Char)) :
    Option Trade :=
  if parts.length < 9 then none
  else
    match _parse_date (parts.getD 1 []) '-' with
    | none => none
    | some settle =>
      match _parse_number (parts.getD 4 []) with
      | none => none
      | some price =>
        match _parse_number (parts.getD 5 []) with
        | none => none
        | some qty =>
          match _infer_currency_from_code (parts.getD 3 []) with
          | none => none
          | some currency =>
            if strContains (parts.getD 3 []) (":FUND".toList) then none
            else
              match huataiSideMap (parts.getD 2 []) with
              | none => none
              | some side =>
                some { account_id := account_id,
                       symbol := String.mk (_normalize_symbol (parts.getD 3 [])),
                       name := none, currency := currency,
                       trade_date := settle, side := side, qty := |qty|,
                       price := price,
                       source := String.mk ("成交单据:".toList ++
                         parts.getD 0 []) }

/-- One line of the first Huatai pass (`src/app/parser.py` lines
112-153): skip unless the line starts with an 8+-digit reference, then
interpret the whitespace-separated columns. -/
def huataiTradeLine (account_id : String) (line : List Char) : Option Trade :=
  if !huataiRefOk line then none
  else huataiTradeParts account_id (pySplit line)

/-- Named groups of the account-activity pattern of `src/app/parser.py`
lines 157-162 that the loop body reads (the `settle` group is unused). -/
structure HuataiGroups2 where
  ref : List Char
  trade : List Char
  side : List Char
  code : List Char
  name : List Char
  price : List Char
  qty : List Char

/-- The body of the second Huatai pass once the account-activity pattern
matched (`src/app/parser.py` lines 169-193). -/
def huataiLoop2Groups (account_id : String) (g : HuataiGroups2) :
    Option Trade :=
  match _parse_date g.trade '-' with
  | none => none
  | some trade_date =>
    match _infer_currency_from_code g.code with
    | none => none
    | some currency =>
      match _parse_number g.price with
      | none => none
      | some price =>
        match _parse_number g.qty with
        | none => none
        | some qty =>
          some { account_id := account_id,
                 symbol := String.mk (_normalize_symbol g.code),
                 name := if g.name.isEmpty then none
                         else some (String.mk (pyStrip g.name)),
                 currency := currency, trade_date := trade_date,
                 side := if g.side = "买入".toList ∨ g.side = "买入开仓".toList
                         then "BUY" else "SELL",
                 qty := |qty|, price := price,
                 source := String.mk ("户口变动:".toList ++ g.ref) }

/-- One line of the second Huatai pass (`src/app/parser.py` lines
163-193); `m2` is the compiled pattern's `search`. -/
def huataiLoop2Line (m2 : List Char → Option HuataiGroups2)
    (account_id : String) (line : List Char) : Option Trade :=
  if !strContains line ("买卖交易".toList) then none
  else
    match m2 line with
    | none => none
    | some g => huataiLoop2Groups account_id g

/-- Named groups of the `ipo_pattern` of `src/app/parser.py` lines
196-200. -/
structure HuataiGroups3 where
  ref : List Char
  settle : List Char
  code : List Char
  name : List Char
  price : List Char
  qty : List Char

/-- The body of the third Huatai pass once the `ipo_pattern` matched
(`src/app/parser.py` lines 209-231). -/
def huataiLoop3Groups (account_id : String) (g : HuataiGroups3) :
    Option Trade :=
  match _parse_date g.settle '-' with
  | none => none
  | some trade_date =>
    match _parse_number g.price with
    | none => none
    | some price =>
      match _parse_number g.qty with
      | none => none
      | some qty =>
        some { account_id := account_id, symbol := String.mk g.code,
               name := some (String.mk (pyStrip g.name)),
               currency := "HKD", trade_date := trade_date,
               side := "BUY", qty := |qty|, price := price,
               source := String.mk ("现货存入:".toList ++ g.ref) }

/-- One line of the third Huatai pass (`src/app/parser.py` lines
201-231); `m3` is the compiled `ipo_pattern`'s `search`. -/
def huataiLoop3Line (m3 : List Char → Option HuataiGroups3)
    (account_id : String) (line : List Char) : Option Trade :=
  if !strContains line ("现货存入".toList) then none
  else if !strContains line ("Successful IPO".toList) &&
          !strContains line ("新股".toList) then none
  else
    match m3 line with
    | none => none
    | some g => huataiLoop3Groups account_id g

/-- The trade list built by `parse_huatai` (`src/app/parser.py` lines
105-231): the three passes appended in source order.  `account_id`
stands for `_huatai_account_id(text)`, which only fills a field the
engine never reads. -/
def huataiTrades (m2 : List Char → Option HuataiGroups2)
    (m3 : List Char → Option HuataiGroups3)
    (account_id : String) (text : List Char) : List Trade :=
  let trade_lines := _extract_section_lines text ("成交单据".toList)
    [("户口变动".toList), ("持货结存".toList)]
  let account_lines := _extract_section_lines text ("户口变动".toList)
    [("持货结存".toList)]
  trade_lines.filterMap (huataiTradeLine account_id) ++
    account_lines.filterMap (huataiLoop2Line m2 account_id) ++
    account_lines.filterMap (huataiLoop3Line m3 account_id)

/-- `_normalize_duplicated` helper carrying the previous character
(`src/app/parser.py` lines 278-288). -/
def normDupAux : Option Char → List Char → List Char
  | _, [] => []
  | prev, c :: rest =>
    if some c == prev && !c.isDigit && !(['.', ',', '-', '(', ')', '/'].contains c)
    then normDupAux prev rest
    else c :: normDupAux (some c) rest

/-- `_normalize_duplicated` from `src/app/parser.py` lines 278-288. -/
def _normalize_duplicated (l : List Char) : List Char := normDupAux none l

/-- Occurrences of a character in a string (`str.count` for the
parenthesis balance test). -/
def countChar (l : List Char) (c : Char) : Nat := (l.filter fun d => d == c).length

/-- `_merge_wrapped_lines` helper (`src/app/parser.py` lines 291-307);
`buffer` empty plays the role of the falsy empty string, `wd` is the
wrap-start pattern's `search` as a Boolean. -/
def mergeWrappedAux (wd : List Char → Bool) :
    List Char → List (List Char) → List (List Char)
  | buffer, [] => if buffer.isEmpty then [] else [buffer]
  | buffer, line :: rest =>
    if !buffer.isEmpty then
      let b2 := buffer ++ line
      if countChar b2 '(' ≤ countChar b2 ')' then
        b2 :: mergeWrappedAux wd [] rest
      else mergeWrappedAux wd b2 rest
    else if wd line then mergeWrappedAux wd line rest
    else line :: mergeWrappedAux wd [] rest

/-- `_merge_wrapped_lines` from `src/app/parser.py` lines 291-307. -/
def _merge_wrapped_lines (wd : List Char → Bool)
    (lines : List (List Char)) : List (List Char) :=
  mergeWrappedAux wd [] lines

/-- Groups of the Futu header patterns (`src/app/parser.py` lines 353
and 359): side, symbol, name. -/
structure FutuHeader where
  side : List Char
  symbol : List Char
  name : List Char

/-- Groups of the Futu row pattern (`src/app/parser.py` lines 366-371)
that the body reads: currency (group 2), trade date (group 3),
quantity (group 5), price (group 6). -/
structure FutuRow where
  currency : List Char
  tradeDate : List Char
  qty : List Char
  price : List Char

/-- Python truthiness of `current_symbol` / `current_side`. -/
def optTruthy (o : Option (List Char)) : Bool :=
  match o with
  | none => false
  | some s => !s.isEmpty

/-- The mutable loop variables of the `for line in lines` state machine
of `parse_futu` (`src/app/parser.py` lines 333-336): `in_trades`,
`current_symbol`, `current_name`, `current_side`. -/
structure FutuState where
  in_trades : Bool
  cs : Option (List Char)
  cn : Option (List Char)
  csd : Option (List Char)
deriving DecidableEq, Repr

/-- The trade built from one data row of the Futu trades section given
the current header state (`src/app/parser.py` lines 372-393): the
option/ADR filter, then the date/quantity/price validity checks, then
the appended record. -/
def futuRowTrade (optLike : List Char → Bool) (account_id : String)
    (sym : List Char) (cn : Option (List Char)) (csd : Option (List Char))
    (row : FutuRow) : Option Trade :=
  if List.isSuffixOf (".US".toList) sym || List.isSuffixOf (".HK".toList) sym
      || optLike sym then none
  else
    match _parse_date row.tradeDate '/' with
    | none => none
    | some trade_date =>
      match _parse_number row.qty with
      | none => none
      | some qty =>
        match _parse_number row.price with
        | none => none
        | some price =>
          some { account_id := account_id, symbol := String.mk sym,
                 name := (cn.map fun n => String.mk n),
                 currency := String.mk row.currency,
                 trade_date := trade_date,
                 side := String.mk (csd.getD []), qty := |qty|,
                 price := price,
                 source := String.mk ("交易:".toList ++ sym) }

/-- One iteration of the `for line in lines` state machine of
`parse_futu` (`src/app/parser.py` lines 337-393): the next state and the
trade this line appends, if any.  `hm`/`pm`/`rm` are the header,
partial-header and row patterns' `search`; `optLike` is
`re.search(r"\d{6,}[CP]\d{4,}", current_symbol)` as a Boolean. -/
def futuStep (hm pm : List Char → Option FutuHeader)
    (rm : List Char → Option FutuRow) (optLike : List Char → Bool)
    (account_id : String) (st : FutuState) (line : List Char) :
    FutuState × Option Trade :=
  if strContains line ("交易--股票和股票期權".toList) ||
     strContains line ("交易--股票和股票期权".toList) then
    ({ in_trades := true, cs := none, cn := none, csd := none }, none)
  else if st.in_trades && strContains line ("交易--基金".toList) then
    ({ in_trades := false, cs := none, cn := none, csd := none }, none)
  else if !st.in_trades then (st, none)
  else
    match hm line with
    | some h =>
      ({ st with
          cs := some h.symbol, cn := some (pyStrip h.name),
          csd := some (if h.side = "買入".toList then "BUY".toList
            else "SELL".toList) }, none)
    | none =>
      match pm line with
      | some h =>
        ({ st with
            cs := some h.symbol, cn := some (pyStrip h.name),
            csd := some (if h.side = "買入".toList then "BUY".toList
              else "SELL".toList) }, none)
      | none =>
        match rm line with
        | none => (st, none)
        | some row =>
          if optTruthy st.cs && optTruthy st.csd then
            (st, futuRowTrade optLike account_id (st.cs.getD []) st.cn
              st.csd row)
          else (st, none)

/-- The whole `for line in lines` loop of `parse_futu`, collecting the
appended trades in order. -/
def futuScan (hm pm : List Char → Option FutuHeader)
    (rm : List Char → Option FutuRow) (optLike : List Char → Bool)
    (account_id : String) : FutuState → List (List Char) → List Trade
  | _, [] => []
  | st, line :: rest =>
    match futuStep hm pm rm optLike account_id st line with
    | (st2, none) => futuScan hm pm rm optLike account_id st2 rest
    | (st2, some t) => t :: futuScan hm pm rm optLike account_id st2 rest

/-- The trade list built by `parse_futu` (`src/app/parser.py` lines
320-393): duplicate-character normalisation, line stripping, wrapped-line
merging, then the section state machine.  `account_id` stands for
`_futu_account_id(text)`. -/
def futuTrades (hm pm : List Char → Option FutuHeader)
    (rm : List Char → Option FutuRow) (wd : List Char → Bool)
    (optLike : List Char → Bool) (account_id : String)
    (text : List Char) : List Trade :=
  let text1 := _normalize_duplicated text
  let lines0 := ((pySplitlines text1).map pyStrip).filter fun l => !l.isEmpty
  let lines1 := _merge_wrapped_lines wd lines0
  futuScan hm pm rm optLike account_id
    { in_trades := false, cs := none, cn := none, csd := none } lines1

/-!
## Association-list (dict) lemmas
-/

-- Batteries marks the `Rat` field operations `@[irreducible]`; reopen them
-- so that concrete engine states evaluate under `decide`.
unseal Rat.add Rat.sub Rat.mul Rat.inv

theorem lookup_dictSet_self [BEq κ] [LawfulBEq κ] (k : κ) (v : α) :
    ∀ d : List (κ × α), (dictSet k v d).lookup k = some v := by
  intro d
  induction d with
  | nil => simp [dictSet, List.lookup]
  | cons p rest ih =>
    by_cases h : p.1 = k
    · simp [dictSet, h, List.lookup]
    · have hb : (p.1 == k) = false := beq_false_of_ne h
      have hb2 : (k == p.1) = false := beq_false_of_ne (Ne.symm h)
      simp [dictSet, hb, hb2, List.lookup, ih]

theorem lookup_dictSet_ne [BEq κ] [LawfulBEq κ] (k k2 : κ) (v : α)
    (h : ¬ k = k2) :
    ∀ d : List (κ × α), (dictSet k v d).lookup k2 = d.lookup k2 := by
  intro d
  induction d with
  | nil => simp [dictSet, List.lookup, beq_false_of_ne (Ne.symm h)]
  | cons p rest ih =>
    by_cases hp : p.1 = k
    · subst hp
      have hb : (k2 == p.1) = false := beq_false_of_ne fun hh => h (hh ▸ rfl)
      simp [dictSet, List.lookup, hb]
    · have hb : (p.1 == k) = false := beq_false_of_ne hp
      simp only [dictSet, hb, Bool.false_eq_true, if_false, List.lookup]
      cases hb2 : (k2 == p.1) with
      | true => rfl
      | false => exact ih

theorem lookup_append_single [BEq κ] [LawfulBEq κ] (k : κ) (v : α) :
    ∀ d : List (κ × α), d.lookup k = none →
      (d ++ [(k, v)]).lookup k = some v := by
  intro d
  induction d with
  | nil => simp [List.lookup]
  | cons p rest ih =>
    intro h
    simp only [List.lookup, List.cons_append] at *
    cases hb : (k == p.1) with
    | true => simp [hb] at h
    | false => simp only [hb] at h ⊢; exact ih h

theorem lookup_dictSetD_self [BEq κ] [LawfulBEq κ] (k : κ) (v : α)
    (d : List (κ × α)) :
    (dictSetD k v d).lookup k = some ((d.lookup k).getD v) := by
  unfold dictSetD
  cases h : d.lookup k with
  | none =>
    simp only [h, Option.isSome_none, Bool.false_eq_true, if_false,
      Option.getD_none]
    exact lookup_append_single k v d h
  | some w => simp [h]

theorem lookup_append_single_ne [BEq κ] [LawfulBEq κ] (k k2 : κ) (v : α)
    (h : ¬ k = k2) :
    ∀ d : List (κ × α), (d ++ [(k, v)]).lookup k2 = d.lookup k2 := by
  intro d
  induction d with
  | nil => simp [List.lookup, beq_false_of_ne (Ne.symm h)]
  | cons p rest ih =>
    simp only [List.lookup, List.cons_append]
    cases hb : (k2 == p.1) with
    | true => rfl
    | false => exact ih

theorem lookup_dictSetD_ne [BEq κ] [LawfulBEq κ] (k k2 : κ) (v : α)
    (h : ¬ k = k2) (d : List (κ × α)) :
    (dictSetD k v d).lookup k2 = d.lookup k2 := by
  unfold dictSetD
  cases hs : (d.lookup k).isSome with
  | true => simp
  | false =>
    simp only [Bool.false_eq_true, if_false]
    exact lookup_append_single_ne k k2 v h d

theorem isSome_lookup_dictSet [BEq κ] [LawfulBEq κ] (k k2 : κ) (v : α)
    (d : List (κ × α)) (h : (d.lookup k2).isSome) :
    ((dictSet k v d).lookup k2).isSome := by
  by_cases hk : k = k2
  · subst hk; simp [lookup_dictSet_self]
  · rw [lookup_dictSet_ne k k2 v hk]; exact h

theorem isSome_lookup_dictSetD [BEq κ] [LawfulBEq κ] (k k2 : κ) (v : α)
    (d : List (κ × α)) (h : (d.lookup k2).isSome) :
    ((dictSetD k v d).lookup k2).isSome := by
  by_cases hk : k = k2
  · subst hk; simp [lookup_dictSetD_self]
  · rw [lookup_dictSetD_ne k k2 v hk]; exact h

theorem isSome_lookup_dictSetD_self [BEq κ] [LawfulBEq κ] (k : κ) (v : α)
    (d : List (κ × α)) : ((dictSetD k v d).lookup k).isSome := by
  simp [lookup_dictSetD_self]

/-!
## Year gating (C1)
-/

theorem sellLoop_shape (price : ℚ) (g1 g2 : Bool) :
    ∀ (lots : List Lot) (rem : ℚ) (a1 a2 : Realized),
      (sellLoop price g1 rem lots a1).lots = (sellLoop price g2 rem lots a2).lots ∧
      (sellLoop price g1 rem lots a1).remaining =
        (sellLoop price g2 rem lots a2).remaining ∧
      (sellLoop price g1 rem lots a1).consumed =
        (sellLoop price g2 rem lots a2).consumed ∧
      (sellLoop price g1 rem lots a1).discarded =
        (sellLoop price g2 rem lots a2).discarded := by
  intro lots
  induction lots with
  | nil => intro rem a1 a2; simp [sellLoop]
  | cons lot rest ih =>
    intro rem a1 a2
    by_cases h1 : rem ≤ eps
    · simp [sellLoop, h1]
    · by_cases h2 : lot.qty - min rem lot.qty ≤ eps
      · simp only [sellLoop, h1, if_false]
        simp only [h2, if_true]
        obtain ⟨e1, e2, e3, e4⟩ := ih (rem - min rem lot.qty)
          (if g1 then _add_realized a1 ((price - lot.cost) * min rem lot.qty) else a1)
          (if g2 then _add_realized a2 ((price - lot.cost) * min rem lot.qty) else a2)
        exact ⟨e1, e2, by rw [e3], by rw [e4]⟩
      · simp [sellLoop, h1, h2]

theorem sellLoop_acc_gate_false (price : ℚ) :
    ∀ (lots : List Lot) (rem : ℚ) (a : Realized),
      (sellLoop price false rem lots a).acc = a := by
  intro lots
  induction lots with
  | nil => intro rem a; simp [sellLoop]
  | cons lot rest ih =>
    intro rem a
    by_cases h1 : rem ≤ eps
    · simp [sellLoop, h1]
    · by_cases h2 : lot.qty - min rem lot.qty ≤ eps
      · simp only [sellLoop, h1, if_false, h2, if_true, Bool.false_eq_true]
        exact ih _ _
      · simp [sellLoop, h1, h2]

theorem processTrade_positions_sell (fb : List (String × ℚ))
    (Y : Option Int) (st : EngineState) (t : Trade) (h : t.side ≠ "BUY") :
    (processTrade fb Y st t).positions =
      dictSet t.symbol
        (sellLoop t.price (gateOf Y t) t.qty
          (((dictSetD t.symbol [] st.positions).lookup t.symbol).getD [])
          (((dictSetD t.symbol { gain := 0, loss := 0 } st.realized).lookup
              t.symbol).getD { gain := 0, loss := 0 })).lots
        (dictSetD t.symbol [] st.positions) := by
  have hside : (t.side == "BUY") = false := beq_false_of_ne h
  simp only [processTrade, hside, Bool.false_eq_true, if_false]
  split <;> rfl

theorem processTrade_realized_lookup_gate_false (fb : List (String × ℚ))
    (Y : Option Int) (st : EngineState) (t : Trade) (h : t.side ≠ "BUY")
    (hg : gateOf Y t = false) :
    (processTrade fb Y st t).realized.lookup t.symbol =
      some ((st.realized.lookup t.symbol).getD { gain := 0, loss := 0 }) := by
  have hside : (t.side == "BUY") = false := beq_false_of_ne h
  have hacc0 : ((dictSetD t.symbol { gain := 0, loss := 0 } st.realized).lookup
      t.symbol).getD { gain := 0, loss := 0 } =
      (st.realized.lookup t.symbol).getD { gain := 0, loss := 0 } := by
    rw [lookup_dictSetD_self]; rfl
  have hloop := sellLoop_acc_gate_false t.price
    (((dictSetD t.symbol [] st.positions).lookup t.symbol).getD []) t.qty
    (((dictSetD t.symbol { gain := 0, loss := 0 } st.realized).lookup
        t.symbol).getD { gain := 0, loss := 0 })
  simp only [processTrade, hside, Bool.false_eq_true, if_false, hg]
  split
  · simp only [Bool.false_eq_true, if_false]
    rw [lookup_dictSet_self, hloop, hacc0]
  · rw [lookup_dictSet_self, hloop, hacc0]

/-- C1: with a target year set, a SELL whose trade year differs from the
target still depletes the symbol's lot queue exactly as an ungated run
would (the resulting `positions` coincide with those of a
`target_year = None` run), while the symbol's accumulator is untouched:
after the trade it still reads whatever it was before (or the fresh zero
accumulator), so only the already-reduced queue is visible to any later
sell in the target year. -/
theorem year_gating (fb : List (String × ℚ)) (y : Int) (st : EngineState)
    (t : Trade) (h1 : t.side ≠ "BUY") (h2 : t.trade_date.year ≠ y) :
    (processTrade fb (some y) st t).positions =
      (processTrade fb none st t).positions ∧
    (processTrade fb (some y) st t).realized.lookup t.symbol =
      some ((st.realized.lookup t.symbol).getD { gain := 0, loss := 0 }) := by
  have hg : gateOf (some y) t = false := by
    simp [gateOf, h2]
  constructor
  · rw [processTrade_positions_sell fb (some y) st t h1,
      processTrade_positions_sell fb none st t h1]
    obtain ⟨e1, _, _, _⟩ := sellLoop_shape t.price (gateOf (some y) t)
      (gateOf none t)
      (((dictSetD t.symbol [] st.positions).lookup t.symbol).getD []) t.qty
      (((dictSetD t.symbol { gain := 0, loss := 0 } st.realized).lookup
          t.symbol).getD { gain := 0, loss := 0 })
      (((dictSetD t.symbol { gain := 0, loss := 0 } st.realized).lookup
          t.symbol).getD { gain := 0, loss := 0 })
    rw [e1]
  · exact processTrade_realized_lookup_gate_false fb (some y) st t h1 hg

/-- C1 witness state: one symbol with a single opening lot `10 @ 1`. -/
def c1_st : EngineState := initState [("S", [{ qty := 10, cost := 1 }])]

/-- C1 witness trade: a sell of 4 shares at price 5 dated 2023, processed
under target year 2024. -/
def c1_sell : Trade :=
  { account_id := "A1", symbol := "S", name := none, currency := "HKD",
    trade_date := { year := 2023, month := 6, day := 1 }, side := "SELL",
    qty := 4, price := 5, source := "t" }

/-- Witness for `year_gating` at a concrete input: an out-of-target-year
sell leaves the accumulator at zero while producing the same depleted
queue as an ungated run. -/
theorem year_gating_witness :
    (processTrade [] (some 2024) c1_st c1_sell).positions =
      (processTrade [] none c1_st c1_sell).positions ∧
    (processTrade [] (some 2024) c1_st c1_sell).realized.lookup "S" =
      some ((c1_st.realized.lookup "S").getD { gain := 0, loss := 0 }) :=
  year_gating [] 2024 c1_st c1_sell (by decide) (by decide)

/-!
## Stable sorting and determinism (C8)
-/

instance : IsTotal Trade tradeLe :=
  ⟨fun a b => by unfold tradeLe dateLe; omega⟩

instance : IsTrans Trade tradeLe :=
  ⟨fun a b c hab hbc => by unfold tradeLe dateLe at *; omega⟩

theorem dateLe_refl (a : PyDate) : dateLe a a := by unfold dateLe; omega

theorem date_eq_of_le_le {a b : PyDate} (h1 : dateLe a b) (h2 : dateLe b a) :
    a = b := by
  unfold dateLe at h1 h2
  have hy : a.year = b.year := by omega
  have hm : a.month = b.month := by omega
  have hd : a.day = b.day := by omega
  obtain ⟨ay, am, ad⟩ := a
  obtain ⟨by1, bm, bd⟩ := b
  simp only [PyDate.mk.injEq]
  exact ⟨hy, hm, hd⟩

theorem filter_orderedInsert (q : Trade → Bool) (x : Trade)
    (hq : ∀ y, q x = true → q y = true → tradeLe x y) :
    ∀ l : List Trade,
      (List.orderedInsert tradeLe x l).filter q =
        if q x then x :: l.filter q else l.filter q := by
  intro l
  induction l with
  | nil =>
    simp only [List.orderedInsert]
    rw [List.filter_cons]
  | cons y ys ih =>
    simp only [List.orderedInsert]
    by_cases hr : tradeLe x y
    · rw [if_pos hr, List.filter_cons]
    · rw [if_neg hr]
      simp only [List.filter_cons]
      cases hy : q y with
      | true =>
        cases hx : q x with
        | true => exact absurd (hq y hx hy) hr
        | false => simp [ih, hx, hy]
      | false => simp [ih, hy]

theorem filter_insertionSort (q : Trade → Bool)
    (hq : ∀ a b, q a = true → q b = true → tradeLe a b) :
    ∀ l : List Trade,
      (List.insertionSort tradeLe l).filter q = l.filter q := by
  intro l
  induction l with
  | nil => rfl
  | cons t l ih =>
    simp only [List.insertionSort]
    rw [filter_orderedInsert q t (fun y => hq t y), ih, List.filter_cons]

/-- The predicate selecting the trades of one fixed trade date. -/
def dateIs (d : PyDate) (t : Trade) : Bool := decide (t.trade_date = d)

theorem sortTrades_filter_date (l : List Trade) (d : PyDate) :
    (sortTrades l).filter (dateIs d) = l.filter (dateIs d) := by
  unfold sortTrades
  refine filter_insertionSort (dateIs d) ?_ l
  intro a b ha hb
  have ha2 : a.trade_date = d := of_decide_eq_true ha
  have hb2 : b.trade_date = d := of_decide_eq_true hb
  unfold tradeLe
  rw [ha2, hb2]
  exact dateLe_refl d

theorem sorted_eq_of_filter_eq :
    ∀ l1 l2 : List Trade, List.Pairwise tradeLe l1 → List.Pairwise tradeLe l2 →
      (∀ d, l1.filter (dateIs d) = l2.filter (dateIs d)) → l1 = l2 := by
  intro l1
  induction l1 with
  | nil =>
    intro l2 _ _ hf
    cases l2 with
    | nil => rfl
    | cons b l2 =>
      have := hf b.trade_date
      simp [List.filter_cons, dateIs] at this
  | cons a l1 ih =>
    intro l2 h1 h2 hf
    cases l2 with
    | nil =>
      have := hf a.trade_date
      simp [List.filter_cons, dateIs] at this
    | cons b l2 =>
      have hmemfilter : ∀ (x : Trade) (m : List Trade) (d : PyDate),
          x ∈ m.filter (dateIs d) → x ∈ m ∧ x.trade_date = d := by
        intro x m d hx
        obtain ⟨hm, hd⟩ := List.mem_filter.1 hx
        exact ⟨hm, of_decide_eq_true hd⟩
      have hdba : dateLe b.trade_date a.trade_date := by
        have ha : a ∈ (b :: l2).filter (dateIs a.trade_date) := by
          rw [← hf a.trade_date]
          simp [List.filter_cons, dateIs]
        obtain ⟨hmem, _⟩ := hmemfilter a (b :: l2) a.trade_date ha
        rcases List.mem_cons.1 hmem with hab | hmem2
        · rw [hab]; exact dateLe_refl _
        · have := List.rel_of_pairwise_cons h2 hmem2
          exact this
      have hdab : dateLe a.trade_date b.trade_date := by
        have hb : b ∈ (a :: l1).filter (dateIs b.trade_date) := by
          rw [hf b.trade_date]
          simp [List.filter_cons, dateIs]
        obtain ⟨hmem, _⟩ := hmemfilter b (a :: l1) b.trade_date hb
        rcases List.mem_cons.1 hmem with hba | hmem1
        · rw [hba]; exact dateLe_refl _
        · exact List.rel_of_pairwise_cons h1 hmem1
      have hd : a.trade_date = b.trade_date := date_eq_of_le_le hdab hdba
      have hhead := hf a.trade_date
      rw [List.filter_cons, List.filter_cons] at hhead
      have hpa : dateIs a.trade_date a = true := by simp [dateIs]
      have hpb : dateIs a.trade_date b = true := by simp [dateIs, hd]
      rw [hpa, hpb] at hhead
      simp only [if_true] at hhead
      obtain ⟨hab, htail0⟩ := List.cons.injEq a _ b _ ▸ hhead
      have htails : ∀ d, l1.filter (dateIs d) = l2.filter (dateIs d) := by
        intro d
        by_cases hda : d = a.trade_date
        · rw [hda]; exact htail0
        · have := hf d
          rw [List.filter_cons, List.filter_cons] at this
          have hqa : dateIs d a = false := by
            simp only [dateIs, decide_eq_false_iff_not]
            exact fun hh => hda (hh ▸ rfl)
          have hqb : dateIs d b = false := by
            simp only [dateIs, decide_eq_false_iff_not]
            rw [← hd]
            exact fun hh => hda (hh ▸ rfl)
          rw [hqa, hqb] at this
          simpa using this
      rw [hab, ih l2 (List.Pairwise.of_cons h1) (List.Pairwise.of_cons h2) htails]

/-- C8: `compute_realized` processes trades in ascending trade-date order
using a stable sort — the sorted sequence is sorted by date and, within
any fixed date, preserves the input order — and consequently the result
is determined by the per-date subsequences alone: any two input lists
whose equal-date trades appear in the same relative order (no matter how
the dates are interleaved across source documents) produce identical
results. -/
theorem stable_sort_determinism (l1 l2 : List Trade)
    (initial_lots : List (String × List Lot)) (fb : List (String × ℚ))
    (y : Option Int) :
    List.Pairwise tradeLe (sortTrades l1) ∧
    (∀ d, (sortTrades l1).filter (dateIs d) = l1.filter (dateIs d)) ∧
    ((∀ d, l1.filter (dateIs d) = l2.filter (dateIs d)) →
      compute_realized l1 initial_lots fb y =
        compute_realized l2 initial_lots fb y) := by
  refine ⟨List.sorted_insertionSort tradeLe l1, sortTrades_filter_date l1, ?_⟩
  intro hf
  have hsorted : sortTrades l1 = sortTrades l2 := by
    refine sorted_eq_of_filter_eq _ _ (List.sorted_insertionSort tradeLe l1)
      (List.sorted_insertionSort tradeLe l2) ?_
    intro d
    rw [sortTrades_filter_date l1 d, sortTrades_filter_date l2 d]
    exact hf d
  unfold compute_realized
  rw [hsorted]

/-- C8 witness trade dated 2024-01-01. -/
def c8_tA : Trade :=
  { account_id := "A1", symbol := "S", name := none, currency := "HKD",
    trade_date := { year := 2024, month := 1, day := 1 }, side := "BUY",
    qty := 2, price := 1, source := "docA" }

/-- C8 witness trade dated 2024-01-02. -/
def c8_tB : Trade :=
  { account_id := "A1", symbol := "S", name := none, currency := "HKD",
    trade_date := { year := 2024, month := 1, day := 2 }, side := "SELL",
    qty := 1, price := 3, source := "docB" }

/-- Witness for `stable_sort_determinism`: two interleavings of the same
dated trades (the per-date subsequences agree) give identical results. -/
theorem stable_sort_determinism_witness :
    compute_realized [c8_tA, c8_tB] [] [] none =
      compute_realized [c8_tB, c8_tA] [] [] none := by
  refine (stable_sort_determinism [c8_tA, c8_tB] [c8_tB, c8_tA] [] [] none).2.2 ?_
  intro d
  by_cases hA : c8_tA.trade_date = d <;> by_cases hB : c8_tB.trade_date = d
  · exact absurd (hA ▸ hB.symm ▸ rfl : c8_tA.trade_date = c8_tB.trade_date)
      (by decide)
  · simp [List.filter_cons, dateIs, hA, hB]
  · simp [List.filter_cons, dateIs, hA, hB]
  · simp [List.filter_cons, dateIs, hA, hB]

/-!
## Missing-cost fallback (C3)
-/

/-- The `SellResult` the engine computes for trade `t` in state `st`
(the value of `r` just after the `while` loop of lines 57-65). -/
def sellResultOf (Y : Option Int) (st : EngineState) (t : Trade) : SellResult :=
  sellLoop t.price (gateOf Y t) t.qty
    (((dictSetD t.symbol [] st.positions).lookup t.symbol).getD [])
    (((dictSetD t.symbol { gain := 0, loss := 0 } st.realized).lookup
        t.symbol).getD { gain := 0, loss := 0 })

/-- C3: when a SELL leaves more than epsilon unmatched after the lot
queue is exhausted, the remainder is matched against the fallback cost:
if `fallback_costs` has no entry for the symbol, exactly one warning is
appended for this sell, the symbol is recorded cost-missing, and the
contribution is taken against cost 0; if a fallback cost `c` exists, the
warnings and the missing-cost set are left exactly as they were and the
contribution is taken against `c` — in both cases subject to the year
gate. -/
theorem fallback_behavior (fb : List (String × ℚ)) (Y : Option Int)
    (st : EngineState) (t : Trade) (h1 : t.side ≠ "BUY")
    (hrem : eps < (sellResultOf Y st t).remaining) :
    (fb.lookup t.symbol = none →
      (processTrade fb Y st t).warnings =
        st.warnings ++ [fallbackWarning t.symbol] ∧
      t.symbol ∈ (processTrade fb Y st t).missing ∧
      (processTrade fb Y st t).realized.lookup t.symbol =
        some (if gateOf Y t then
            _add_realized (sellResultOf Y st t).acc
              ((t.price - 0) * (sellResultOf Y st t).remaining)
          else (sellResultOf Y st t).acc)) ∧
    (∀ c, fb.lookup t.symbol = some c →
      (processTrade fb Y st t).warnings = st.warnings ∧
      (processTrade fb Y st t).missing = st.missing ∧
      (processTrade fb Y st t).realized.lookup t.symbol =
        some (if gateOf Y t then
            _add_realized (sellResultOf Y st t).acc
              ((t.price - c) * (sellResultOf Y st t).remaining)
          else (sellResultOf Y st t).acc)) := by
  have hside : (t.side == "BUY") = false := beq_false_of_ne h1
  simp only [sellResultOf] at hrem ⊢
  constructor
  · intro hnone
    simp only [processTrade, hside, Bool.false_eq_true, if_false, if_pos hrem,
      hnone, Option.isSome_none, Option.getD_none]
    refine ⟨trivial, ?_, ?_⟩
    · by_cases hmem : t.symbol ∈ st.missing
      · simp [hmem]
      · simp only [hmem, if_false]
        exact List.mem_append_right _ (List.mem_singleton.2 rfl)
    · rw [lookup_dictSet_self]
  · intro c hsome
    simp only [processTrade, hside, Bool.false_eq_true, if_false, if_pos hrem,
      hsome, Option.isSome_some, if_true, Option.getD_some]
    exact ⟨trivial, trivial, by rw [lookup_dictSet_self]⟩

/-- C3 witness trade: a sell of 5 shares at price 3 with no lots at all. -/
def c3_sell : Trade :=
  { account_id := "A1", symbol := "S", name := none, currency := "HKD",
    trade_date := { year := 2024, month := 2, day := 1 }, side := "SELL",
    qty := 5, price := 3, source := "t" }

/-- Witness for `fallback_behavior`: selling 5 shares at price 3 with an
empty queue and no fallback cost yields gain `5 * 3 = 15` against cost 0,
exactly one warning, and the symbol marked cost-missing. -/
theorem fallback_behavior_witness :
    (processTrade [] none (initState []) c3_sell).warnings =
      [fallbackWarning "S"] ∧
    "S" ∈ (processTrade [] none (initState []) c3_sell).missing ∧
    (processTrade [] none (initState []) c3_sell).realized.lookup "S" =
      some { gain := 15, loss := 0 } := by
  obtain ⟨hw, hm, hr⟩ :=
    (fallback_behavior [] none (initState []) c3_sell (by decide) (by decide)).1 rfl
  exact ⟨hw.trans (by decide), hm, hr.trans (by decide)⟩

/-!
## Lot-quantity conservation (C4)
-/

theorem eps_pos : 0 < eps := by norm_num [eps]

theorem totalLots_cons (l : Lot) (ls : List Lot) :
    totalLots (l :: ls) = l.qty + totalLots ls := by
  simp [totalLots]

theorem totalLots_append (a b : List Lot) :
    totalLots (a ++ b) = totalLots a + totalLots b := by
  simp [totalLots]

theorem totalPos_append (a b : List (String × List Lot)) :
    totalPos (a ++ b) = totalPos a + totalPos b := by
  simp [totalPos]

theorem sellLoop_small (price : ℚ) (gate : Bool) (rem : ℚ)
    (lots : List Lot) (acc : Realized) (h : rem ≤ eps) :
    sellLoop price gate rem lots acc =
      { lots := lots, acc := acc, remaining := rem,
        consumed := 0, discarded := 0 } := by
  cases lots with
  | nil => simp [sellLoop]
  | cons lot rest => simp [sellLoop, h]

theorem sellLoop_conservation (price : ℚ) (gate : Bool) :
    ∀ (lots : List Lot) (rem : ℚ) (acc : Realized),
      totalLots (sellLoop price gate rem lots acc).lots +
          (sellLoop price gate rem lots acc).consumed +
          (sellLoop price gate rem lots acc).discarded = totalLots lots ∧
      0 ≤ (sellLoop price gate rem lots acc).discarded ∧
      (sellLoop price gate rem lots acc).discarded ≤ eps := by
  intro lots
  induction lots with
  | nil =>
    intro rem acc
    refine ⟨by simp [sellLoop], by simp [sellLoop], ?_⟩
    simp only [sellLoop]
    exact le_of_lt eps_pos
  | cons lot rest ih =>
    intro rem acc
    by_cases h1 : rem ≤ eps
    · refine ⟨by simp [sellLoop, h1], by simp [sellLoop, h1], ?_⟩
      simp only [sellLoop, h1, if_true]
      exact le_of_lt eps_pos
    · by_cases h2 : lot.qty - min rem lot.qty ≤ eps
      · have hmin : min rem lot.qty ≤ lot.qty := min_le_right _ _
        simp only [sellLoop, h1, if_false, h2, if_true]
        obtain ⟨e1, e2, e3⟩ := ih (rem - min rem lot.qty)
          (if gate then _add_realized acc ((price - lot.cost) * min rem lot.qty)
           else acc)
        refine ⟨?_, ?_, ?_⟩
        · rw [totalLots_cons]; linarith
        · linarith
        · rcases le_total lot.qty rem with hc | hc
          · have hm : min rem lot.qty = lot.qty := min_eq_right hc
            rw [hm] at e3 ⊢
            have hz : lot.qty - lot.qty = 0 := by ring
            rw [hz, zero_add]
            exact e3
          · have hm : min rem lot.qty = rem := min_eq_left hc
            have hz : rem - min rem lot.qty = 0 := by rw [hm]; ring
            rw [hz] at e3 e2 ⊢
            rw [sellLoop_small price gate 0 rest _ (le_of_lt eps_pos)]
            simpa using h2
      · simp only [sellLoop, h1, if_false, h2, if_false]
        refine ⟨?_, le_refl 0, le_of_lt eps_pos⟩
        rw [totalLots_cons, totalLots_cons]
        ring

theorem totalPos_dictSetD_nil (k : String) (d : List (String × List Lot)) :
    totalPos (dictSetD k [] d) = totalPos d := by
  unfold dictSetD
  split
  · rfl
  · rw [totalPos_append]; simp [totalPos, totalLots]

theorem totalPos_dictSet (k : String) (v L : List Lot) :
    ∀ d : List (String × List Lot), d.lookup k = some L →
      totalPos (dictSet k v d) = totalPos d - totalLots L + totalLots v := by
  intro d
  induction d with
  | nil => intro h; simp [List.lookup] at h
  | cons p rest ih =>
    intro h
    by_cases hp : p.1 = k
    · have hb : (p.1 == k) = true := by simp [hp]
      have hb2 : (k == p.1) = true := by simp [hp]
      simp only [List.lookup, hb2] at h
      obtain rfl : p.2 = L := by simpa using h
      simp only [dictSet, hb, if_true]
      simp only [totalPos, List.map_cons, List.sum_cons]
      ring
    · have hb : (p.1 == k) = false := beq_false_of_ne hp
      have hb2 : (k == p.1) = false := beq_false_of_ne (Ne.symm hp)
      simp only [List.lookup, hb2] at h
      simp only [dictSet, hb, Bool.false_eq_true, if_false]
      simp only [totalPos, List.map_cons, List.sum_cons] at *
      rw [ih h]
      ring

theorem processTrade_buy_fields (fb : List (String × ℚ)) (Y : Option Int)
    (st : EngineState) (t : Trade) (h : t.side = "BUY") :
    (processTrade fb Y st t).positions =
      dictSet t.symbol
        ((((dictSetD t.symbol [] st.positions).lookup t.symbol).getD []) ++
          [{ qty := t.qty, cost := t.price }])
        (dictSetD t.symbol [] st.positions) ∧
    (processTrade fb Y st t).consumed = st.consumed ∧
    (processTrade fb Y st t).discarded = st.discarded := by
  have hb : (t.side == "BUY") = true := by simp [h]
  simp [processTrade, hb]

theorem processTrade_consumed_sell (fb : List (String × ℚ)) (Y : Option Int)
    (st : EngineState) (t : Trade) (h : t.side ≠ "BUY") :
    (processTrade fb Y st t).consumed =
      st.consumed + (sellResultOf Y st t).consumed := by
  have hside : (t.side == "BUY") = false := beq_false_of_ne h
  simp only [processTrade, hside, Bool.false_eq_true, if_false, sellResultOf]
  split <;> rfl

theorem processTrade_discarded_sell (fb : List (String × ℚ)) (Y : Option Int)
    (st : EngineState) (t : Trade) (h : t.side ≠ "BUY") :
    (processTrade fb Y st t).discarded =
      st.discarded + (sellResultOf Y st t).discarded := by
  have hside : (t.side == "BUY") = false := beq_false_of_ne h
  simp only [processTrade, hside, Bool.false_eq_true, if_false, sellResultOf]
  split <;> rfl

theorem processTrade_conservation (fb : List (String × ℚ)) (Y : Option Int)
    (st : EngineState) (t : Trade) :
    totalPos (processTrade fb Y st t).positions +
        (processTrade fb Y st t).consumed +
        (processTrade fb Y st t).discarded =
      totalPos st.positions + st.consumed + st.discarded +
        (if t.side = "BUY" then t.qty else 0) ∧
    st.discarded ≤ (processTrade fb Y st t).discarded ∧
    (processTrade fb Y st t).discarded ≤
      st.discarded + (if t.side = "BUY" then 0 else eps) := by
  have hlk : (dictSetD t.symbol [] st.positions).lookup t.symbol =
      some ((st.positions.lookup t.symbol).getD []) :=
    lookup_dictSetD_self _ _ _
  have hP1 : totalPos (dictSetD t.symbol [] st.positions) =
      totalPos st.positions := totalPos_dictSetD_nil _ _
  by_cases h : t.side = "BUY"
  · obtain ⟨hpos, hcon, hdis⟩ := processTrade_buy_fields fb Y st t h
    rw [hpos, hcon, hdis, totalPos_dictSet t.symbol _ _ _ hlk, hP1,
      totalLots_append, if_pos h, if_pos h, hlk]
    simp only [Option.getD_some]
    refine ⟨?_, le_refl _, le_of_eq (by ring)⟩
    simp only [totalLots, List.map_cons, List.map_nil, List.sum_cons,
      List.sum_nil]
    ring
  · have hpos := processTrade_positions_sell fb Y st t h
    have hcon := processTrade_consumed_sell fb Y st t h
    have hdis := processTrade_discarded_sell fb Y st t h
    obtain ⟨e1, e2, e3⟩ := sellLoop_conservation t.price (gateOf Y t)
      (((dictSetD t.symbol [] st.positions).lookup t.symbol).getD []) t.qty
      (((dictSetD t.symbol { gain := 0, loss := 0 } st.realized).lookup
          t.symbol).getD { gain := 0, loss := 0 })
    rw [hlk] at e1 e2 e3 hpos
    have hsr : sellResultOf Y st t = sellLoop t.price (gateOf Y t) t.qty
        (((st.positions.lookup t.symbol).getD []))
        (((dictSetD t.symbol { gain := 0, loss := 0 } st.realized).lookup
            t.symbol).getD { gain := 0, loss := 0 }) := by
      simp only [sellResultOf, hlk]
      rfl
    rw [hpos, hcon, hdis, hsr,
      totalPos_dictSet t.symbol _ _ _ hlk, hP1, if_neg h, if_neg h]
    simp only [Option.getD_some] at e1 e2 e3 ⊢
    refine ⟨by linarith, by linarith, by linarith⟩

theorem totalBuys_cons (t : Trade) (l : List Trade) :
    totalBuys (t :: l) =
      (if t.side = "BUY" then t.qty else 0) + totalBuys l := by
  by_cases h : t.side = "BUY"
  · have hb : (t.side == "BUY") = true := by simp [h]
    simp [totalBuys, List.filter_cons, hb, h]
  · have hb : (t.side == "BUY") = false := beq_false_of_ne h
    simp [totalBuys, List.filter_cons, hb, h]

theorem numSells_cons (t : Trade) (l : List Trade) :
    numSells (t :: l) = (if t.side = "BUY" then 0 else 1) + numSells l := by
  by_cases h : t.side = "BUY"
  · have hb : (t.side == "BUY") = true := by simp [h]
    simp [numSells, List.filter_cons, hb, h]
  · have hb : (t.side == "BUY") = false := beq_false_of_ne h
    simp [numSells, List.filter_cons, hb, h]
    omega

theorem foldl_conservation (fb : List (String × ℚ)) (Y : Option Int) :
    ∀ (l : List Trade) (st : EngineState),
      totalPos (l.foldl (processTrade fb Y) st).positions +
          (l.foldl (processTrade fb Y) st).consumed +
          (l.foldl (processTrade fb Y) st).discarded =
        totalPos st.positions + st.consumed + st.discarded + totalBuys l ∧
      st.discarded ≤ (l.foldl (processTrade fb Y) st).discarded ∧
      (l.foldl (processTrade fb Y) st).discarded ≤
        st.discarded + (numSells l : ℚ) * eps := by
  intro l
  induction l with
  | nil =>
    intro st
    refine ⟨by simp [totalBuys], le_refl _, ?_⟩
    simp [numSells]
  | cons t l ih =>
    intro st
    obtain ⟨p1, p2, p3⟩ := processTrade_conservation fb Y st t
    obtain ⟨q1, q2, q3⟩ := ih (processTrade fb Y st t)
    simp only [List.foldl_cons]
    refine ⟨?_, ?_, ?_⟩
    · rw [q1, totalBuys_cons]
      by_cases h : t.side = "BUY" <;> simp only [h, if_true, if_false] at p1 ⊢ <;>
        linarith
    · linarith
    · rw [numSells_cons]
      by_cases h : t.side = "BUY"
      · simp only [h, if_true] at p3 ⊢
        push_cast
        linarith
      · simp only [h, if_false] at p3 ⊢
        push_cast
        linarith

/-- C4 (amended): lot quantity is conserved up to the discarded
sub-epsilon lot residues: buys plus seeded opening quantity equals
consumed quantity plus the quantity left in open lots plus a nonnegative
discarded total, and that discarded total is at most one epsilon per SELL
trade — so the conservation discrepancy is bounded by
`(number of sells) * 1e-9`, not by a single epsilon. -/
theorem lot_conservation_amended (trades : List Trade)
    (initial_lots : List (String × List Lot))
    (fb : List (String × ℚ)) (y : Option Int) :
    totalBuys trades + totalPos initial_lots =
      (compute_realized trades initial_lots fb y).consumed +
        (compute_realized trades initial_lots fb y).discarded +
        totalPos (compute_realized trades initial_lots fb y).positions ∧
    0 ≤ (compute_realized trades initial_lots fb y).discarded ∧
    (compute_realized trades initial_lots fb y).discarded ≤
      (numSells trades : ℚ) * eps := by
  have hperm : List.Perm (sortTrades trades) trades :=
    List.perm_insertionSort _ _
  have hbuys : totalBuys (sortTrades trades) = totalBuys trades := by
    unfold totalBuys
    exact ((hperm.filter _).map Trade.qty).sum_eq
  have hsells : numSells (sortTrades trades) = numSells trades := by
    unfold numSells
    exact (hperm.filter _).length_eq
  obtain ⟨q1, q2, q3⟩ := foldl_conservation fb y (sortTrades trades)
    (initState initial_lots)
  have e1 : (initState initial_lots).positions = initial_lots := rfl
  have e2 : (initState initial_lots).consumed = 0 := rfl
  have e3 : (initState initial_lots).discarded = 0 := rfl
  rw [e1, e2, e3] at q1
  rw [e3] at q2
  rw [e3] at q3
  rw [hbuys] at q1
  rw [hsells] at q3
  unfold compute_realized
  exact ⟨by linarith, by linarith, by linarith⟩


/-!
## Realized-entry invariants (C10)
-/

theorem processTrade_realized_lookup_ne (fb : List (String × ℚ))
    (Y : Option Int) (st : EngineState) (t : Trade) (s : String)
    (hne : ¬ t.symbol = s) :
    (processTrade fb Y st t).realized.lookup s = st.realized.lookup s := by
  by_cases hside : t.side = "BUY"
  · have hb : (t.side == "BUY") = true := by simp [hside]
    simp only [processTrade, hb, if_true]
    exact lookup_dictSetD_ne _ _ _ hne _
  · have hb : (t.side == "BUY") = false := beq_false_of_ne hside
    simp only [processTrade, hb, Bool.false_eq_true, if_false]
    split
    · rw [lookup_dictSet_ne _ _ _ hne, lookup_dictSet_ne _ _ _ hne,
        lookup_dictSetD_ne _ _ _ hne]
    · rw [lookup_dictSet_ne _ _ _ hne, lookup_dictSetD_ne _ _ _ hne]

theorem processTrade_realized_lookup_self_isSome (fb : List (String × ℚ))
    (Y : Option Int) (st : EngineState) (t : Trade) :
    ((processTrade fb Y st t).realized.lookup t.symbol).isSome := by
  by_cases hside : t.side = "BUY"
  · have hb : (t.side == "BUY") = true := by simp [hside]
    simp only [processTrade, hb, if_true]
    exact isSome_lookup_dictSetD_self _ _ _
  · have hb : (t.side == "BUY") = false := beq_false_of_ne hside
    simp only [processTrade, hb, Bool.false_eq_true, if_false]
    split
    · rw [lookup_dictSet_self]; rfl
    · rw [lookup_dictSet_self]; rfl

theorem processTrade_realized_isSome_mono (fb : List (String × ℚ))
    (Y : Option Int) (st : EngineState) (t : Trade) (s : String)
    (h : (st.realized.lookup s).isSome) :
    ((processTrade fb Y st t).realized.lookup s).isSome := by
  by_cases hts : t.symbol = s
  · rw [← hts]
    exact processTrade_realized_lookup_self_isSome fb Y st t
  · rw [processTrade_realized_lookup_ne fb Y st t s hts]
    exact h

theorem foldl_realized_isSome_mono (fb : List (String × ℚ)) (Y : Option Int) :
    ∀ (l : List Trade) (st : EngineState) (s : String),
      (st.realized.lookup s).isSome →
      ((l.foldl (processTrade fb Y) st).realized.lookup s).isSome := by
  intro l
  induction l with
  | nil => intro st s h; exact h
  | cons u l ih =>
    intro st s h
    exact ih _ s (processTrade_realized_isSome_mono fb Y st u s h)

theorem foldl_realized_isSome (fb : List (String × ℚ)) (Y : Option Int) :
    ∀ (l : List Trade) (st : EngineState) (t : Trade), t ∈ l →
      ((l.foldl (processTrade fb Y) st).realized.lookup t.symbol).isSome := by
  intro l
  induction l with
  | nil => intro st t h; exact absurd h (List.not_mem_nil t)
  | cons u l ih =>
    intro st t h
    rcases List.mem_cons.1 h with rfl | hmem
    · exact foldl_realized_isSome_mono fb Y l _ t.symbol
        (processTrade_realized_lookup_self_isSome fb Y st t)
    · exact ih _ t hmem

theorem _add_realized_nonneg (a : Realized) (x : ℚ)
    (hg : 0 ≤ a.gain) (hl : 0 ≤ a.loss) :
    0 ≤ (_add_realized a x).gain ∧ 0 ≤ (_add_realized a x).loss := by
  unfold _add_realized
  split
  · constructor
    · simp only
      linarith
    · simpa using hl
  · constructor
    · simpa using hg
    · simp only
      linarith

theorem sellLoop_acc_nonneg (price : ℚ) (gate : Bool) :
    ∀ (lots : List Lot) (rem : ℚ) (acc : Realized),
      0 ≤ acc.gain → 0 ≤ acc.loss →
      0 ≤ (sellLoop price gate rem lots acc).acc.gain ∧
      0 ≤ (sellLoop price gate rem lots acc).acc.loss := by
  intro lots
  induction lots with
  | nil => intro rem acc hg hl; simp only [sellLoop]; exact ⟨hg, hl⟩
  | cons lot rest ih =>
    intro rem acc hg hl
    by_cases h1 : rem ≤ eps
    · simp only [sellLoop, h1, if_true]; exact ⟨hg, hl⟩
    · by_cases h2 : lot.qty - min rem lot.qty ≤ eps
      · simp only [sellLoop, h1, if_false, h2, if_true]
        cases hgate : gate with
        | true =>
          obtain ⟨g1, g2⟩ := _add_realized_nonneg acc
            ((price - lot.cost) * min rem lot.qty) hg hl
          simpa [hgate] using ih (rem - min rem lot.qty) _ g1 g2
        | false => simpa [hgate] using ih (rem - min rem lot.qty) acc hg hl
      · simp only [sellLoop, h1, if_false, h2, if_false]
        cases hgate : gate with
        | true =>
          simpa [hgate] using _add_realized_nonneg acc
            ((price - lot.cost) * min rem lot.qty) hg hl
        | false => simpa [hgate] using And.intro hg hl

/-- All realized accumulators reachable in a state are componentwise
nonnegative. -/
def AccNonneg (st : EngineState) : Prop :=
  ∀ s r, st.realized.lookup s = some r → 0 ≤ r.gain ∧ 0 ≤ r.loss

theorem acc0_cases (st : EngineState) (sym : String) (h : AccNonneg st) :
    0 ≤ ((st.realized.lookup sym).getD { gain := 0, loss := 0 }).gain ∧
    0 ≤ ((st.realized.lookup sym).getD { gain := 0, loss := 0 }).loss := by
  cases hl : st.realized.lookup sym with
  | none => simp
  | some r => simpa using h sym r hl

theorem processTrade_accNonneg (fb : List (String × ℚ)) (Y : Option Int)
    (st : EngineState) (t : Trade) (h : AccNonneg st) :
    AccNonneg (processTrade fb Y st t) := by
  intro s r hr
  by_cases hts : t.symbol = s
  case neg =>
    rw [processTrade_realized_lookup_ne fb Y st t s hts] at hr
    exact h s r hr
  case pos =>
    subst hts
    obtain ⟨h0g, h0l⟩ := acc0_cases st t.symbol h
    by_cases hside : t.side = "BUY"
    · have hb : (t.side == "BUY") = true := by simp [hside]
      simp only [processTrade, hb, if_true] at hr
      rw [lookup_dictSetD_self] at hr
      obtain rfl : ((st.realized.lookup t.symbol).getD
          { gain := 0, loss := 0 }) = r := by simpa using hr
      exact ⟨h0g, h0l⟩
    · have hb : (t.side == "BUY") = false := beq_false_of_ne hside
      have hacc0 : ((dictSetD t.symbol { gain := 0, loss := 0 }
          st.realized).lookup t.symbol).getD { gain := 0, loss := 0 } =
          (st.realized.lookup t.symbol).getD { gain := 0, loss := 0 } := by
        rw [lookup_dictSetD_self]; rfl
      obtain ⟨hrg, hrl⟩ := sellLoop_acc_nonneg t.price (gateOf Y t)
        (((dictSetD t.symbol [] st.positions).lookup t.symbol).getD []) t.qty
        (((dictSetD t.symbol { gain := 0, loss := 0 } st.realized).lookup
            t.symbol).getD { gain := 0, loss := 0 })
        (by rw [hacc0]; exact h0g) (by rw [hacc0]; exact h0l)
      simp only [processTrade, hb, Bool.false_eq_true, if_false] at hr
      split at hr
      · rw [lookup_dictSet_self] at hr
        cases hgate : gateOf Y t with
        | true =>
          simp only [hgate, if_true] at hr
          obtain ⟨g1, g2⟩ := _add_realized_nonneg _
            ((t.price -
              ((fb.lookup t.symbol).getD 0)) *
                (sellLoop t.price (gateOf Y t) t.qty
                  (((dictSetD t.symbol [] st.positions).lookup
                      t.symbol).getD [])
                  (((dictSetD t.symbol { gain := 0, loss := 0 }
                      st.realized).lookup t.symbol).getD
                    { gain := 0, loss := 0 })).remaining) hrg hrl
          obtain rfl := Option.some.injEq _ _ ▸ hr
          exact ⟨by simpa [hgate] using g1, by simpa [hgate] using g2⟩
        | false =>
          simp only [hgate, Bool.false_eq_true, if_false] at hr
          rw [hgate] at hrg hrl
          obtain rfl : _ = r := by simpa using hr
          exact ⟨hrg, hrl⟩
      · rw [lookup_dictSet_self] at hr
        obtain rfl : _ = r := by simpa using hr
        exact ⟨hrg, hrl⟩

theorem foldl_accNonneg (fb : List (String × ℚ)) (Y : Option Int) :
    ∀ (l : List Trade) (st : EngineState), AccNonneg st →
      AccNonneg (l.foldl (processTrade fb Y) st) := by
  intro l
  induction l with
  | nil => intro st h; exact h
  | cons u l ih =>
    intro st h
    exact ih _ (processTrade_accNonneg fb Y st u h)

/-- The symbol `s` has an absent or zero accumulator. -/
def ZeroEntry (st : EngineState) (s : String) : Prop :=
  st.realized.lookup s = none ∨
    st.realized.lookup s = some { gain := 0, loss := 0 }

theorem processTrade_zeroEntry (fb : List (String × ℚ)) (Y : Option Int)
    (st : EngineState) (t : Trade) (s : String)
    (ht : t.symbol = s → t.side = "BUY" ∨ gateOf Y t = false)
    (h : ZeroEntry st s) : ZeroEntry (processTrade fb Y st t) s := by
  by_cases hts : t.symbol = s
  case neg =>
    unfold ZeroEntry
    rw [processTrade_realized_lookup_ne fb Y st t s hts]
    exact h
  case pos =>
    subst hts
    have hzero : (st.realized.lookup t.symbol).getD { gain := 0, loss := 0 } =
        { gain := 0, loss := 0 } := by
      rcases h with h | h <;> rw [h] <;> rfl
    by_cases hside : t.side = "BUY"
    · have hb : (t.side == "BUY") = true := by simp [hside]
      unfold ZeroEntry
      simp only [processTrade, hb, if_true]
      rw [lookup_dictSetD_self, hzero]
      right
      rfl
    · have hgate : gateOf Y t = false := (ht rfl).resolve_left hside
      unfold ZeroEntry
      rw [processTrade_realized_lookup_gate_false fb Y st t hside hgate, hzero]
      right
      rfl

theorem foldl_zeroEntry (fb : List (String × ℚ)) (Y : Option Int) (s : String) :
    ∀ (l : List Trade) (st : EngineState),
      (∀ t ∈ l, t.symbol = s → t.side = "BUY" ∨ gateOf Y t = false) →
      ZeroEntry st s → ZeroEntry (l.foldl (processTrade fb Y) st) s := by
  intro l
  induction l with
  | nil => intro st _ h; exact h
  | cons u l ih =>
    intro st hl h
    exact ih _ (fun t htl => hl t (List.mem_cons_of_mem u htl))
      (processTrade_zeroEntry fb Y st u s (hl u (List.mem_cons_self u l)) h)

/-- C10: the realized mapping returned by `compute_realized` has an entry
for the symbol of every input trade; every returned accumulator has
nonnegative gain and nonnegative loss; and a symbol none of whose trades
can contribute (each is a BUY or is gated out by the target year) ends
with an absent or zero accumulator — in particular symbols appearing only
in BUYs report gain 0 and loss 0. -/
theorem realized_entry_invariants (trades : List Trade)
    (initial_lots : List (String × List Lot)) (fb : List (String × ℚ))
    (y : Option Int) :
    (∀ t ∈ trades,
      ((compute_realized trades initial_lots fb y).realized.lookup
        t.symbol).isSome) ∧
    (∀ s r, (compute_realized trades initial_lots fb y).realized.lookup s =
        some r → 0 ≤ r.gain ∧ 0 ≤ r.loss) ∧
    (∀ s, (∀ t ∈ trades, t.symbol = s → t.side = "BUY" ∨ gateOf y t = false) →
      ZeroEntry (compute_realized trades initial_lots fb y) s) := by
  have hperm : List.Perm (sortTrades trades) trades :=
    List.perm_insertionSort _ _
  refine ⟨?_, ?_, ?_⟩
  · intro t ht
    exact foldl_realized_isSome fb y (sortTrades trades) (initState initial_lots)
      t (hperm.mem_iff.2 ht)
  · intro s r hr
    refine foldl_accNonneg fb y (sortTrades trades) (initState initial_lots)
      ?_ s r hr
    intro s2 r2 hr2
    simp [initState, List.lookup] at hr2
  · intro s hs
    refine foldl_zeroEntry fb y s (sortTrades trades) (initState initial_lots)
      (fun t htl => hs t (hperm.mem_iff.1 htl)) ?_
    left
    rfl

/-- C10 witness inputs: one BUY of `S` in the target year and one SELL of
`S` dated outside the target year. -/
def c10_trades : List Trade :=
  [{ account_id := "A1", symbol := "S", name := none, currency := "HKD",
     trade_date := { year := 2024, month := 1, day := 1 }, side := "BUY",
     qty := 1, price := 1, source := "t" },
   { account_id := "A1", symbol := "S", name := none, currency := "HKD",
     trade_date := { year := 2023, month := 1, day := 2 }, side := "SELL",
     qty := 1, price := 2, source := "t" }]

/-- Witness for `realized_entry_invariants`: with only a BUY and a
gated-out SELL of `S`, the returned mapping still has an `S` entry and it
is the zero accumulator. -/
theorem realized_entry_invariants_witness :
    ((compute_realized c10_trades [] [] (some 2024)).realized.lookup
      "S").isSome ∧
    ZeroEntry (compute_realized c10_trades [] [] (some 2024)) "S" := by
  obtain ⟨h1, _, h3⟩ := realized_entry_invariants c10_trades [] [] (some 2024)
  refine ⟨?_, h3 "S" (by decide)⟩
  exact h1 (c10_trades.get ⟨0, by decide⟩) (by decide)


/-- C2 scenario: lots `[10 @ 1, 5 @ 2]`. -/
def c2_lots : List (String × List Lot) :=
  [("S", [{ qty := 10, cost := 1 }, { qty := 5, cost := 2 }])]

/-- C2 scenario: a sell of 12 shares at price 3 in the target year. -/
def c2_sell : Trade :=
  { account_id := "A1", symbol := "S", name := none, currency := "HKD",
    trade_date := { year := 2024, month := 3, day := 5 }, side := "SELL",
    qty := 12, price := 3, source := "t" }

/-- C2: with lots `[qty=10@cost=1, qty=5@cost=2]` and one SELL of 12 at
price 3 in the target year, `compute_realized` consumes all of the first
lot then 2 units of the second: gain `10*(3-1) + 2*(3-2) = 22`, loss 0,
exactly one lot `3 @ 2` left, no warnings, no missing-cost symbol. -/
theorem fifo_ordering_example :
    compute_realized [c2_sell] c2_lots [] (some 2024) =
      { positions := [("S", [{ qty := 3, cost := 2 }])],
        realized := [("S", { gain := 22, loss := 0 })],
        warnings := [], missing := [], consumed := 12, discarded := 0 } := by
  decide

/-- C5 counterexample input: a BUY of symbol `S` in account `ACCT-A`. -/
def c5_buy : Trade :=
  { account_id := "ACCT-A", symbol := "S", name := none, currency := "HKD",
    trade_date := { year := 2024, month := 1, day := 1 }, side := "BUY",
    qty := 1, price := 1, source := "t" }

/-- C5 counterexample input: a SELL of symbol `S` in account `ACCT-B`. -/
def c5_sell : Trade :=
  { account_id := "ACCT-B", symbol := "S", name := none, currency := "HKD",
    trade_date := { year := 2024, month := 1, day := 2 }, side := "SELL",
    qty := 1, price := 2, source := "t" }

/-- C5 counterexample: `compute_realized` keys its queues and
accumulators by symbol alone, so a SELL in account `ACCT-B` *does*
consume the lot created by account `ACCT-A`'s BUY of the same symbol:
the single merged entry for `S` records gain 1, the shared queue is
emptied, and no missing-cost fallback or warning occurs — contradicting
the claimed per-account separation, under which the `ACCT-B` sell would
have found no lots. -/
theorem account_merge_counterexample :
    compute_realized [c5_buy, c5_sell] [] [] none =
      { positions := [("S", [])],
        realized := [("S", { gain := 1, loss := 0 })],
        warnings := [], missing := [], consumed := 1, discarded := 0 } := by
  decide

theorem processTrade_ignores_account (fb : List (String × ℚ))
    (Y : Option Int) (st : EngineState) (t : Trade) (s : String) :
    processTrade fb Y st { t with account_id := s } = processTrade fb Y st t :=
  rfl

theorem sortTrades_map_account (f : Trade → String) (l : List Trade) :
    (sortTrades l).map (fun t => { t with account_id := f t }) =
      sortTrades (l.map fun t => { t with account_id := f t }) := by
  unfold sortTrades
  exact List.map_insertionSort _ _ _ _ (fun a _ b _ => Iff.rfl)

/-- C5 (amended): `compute_realized` maintains one lot queue and one
accumulator per *symbol* and ignores `account_id` entirely — rewriting
every trade's account in any way whatsoever leaves the whole result
unchanged; per-account separation exists only because the caller invokes
the engine once per account with that account's trades. -/
theorem compute_realized_ignores_account (f : Trade → String)
    (trades : List Trade) (initial_lots : List (String × List Lot))
    (fb : List (String × ℚ)) (y : Option Int) :
    compute_realized (trades.map fun t => { t with account_id := f t })
        initial_lots fb y =
      compute_realized trades initial_lots fb y := by
  unfold compute_realized
  rw [← sortTrades_map_account, List.foldl_map]
  rfl

/-- C6 failing input: one caller lot `10 @ 1`. -/
def c6_lots : List (String × List Lot) := [("S", [{ qty := 10, cost := 1 }])]

/-- C6 failing input: a sell of 8 shares at price 2. -/
def c6_sell : Trade :=
  { account_id := "A1", symbol := "S", name := none, currency := "HKD",
    trade_date := { year := 2024, month := 3, day := 5 }, side := "SELL",
    qty := 8, price := 2, source := "t" }

/-- C6: `positions = {sym: list(lots)}` copies the lists but shares the
`Lot` objects, and `lot.qty -= take` writes through them, so the caller's
`initial_lots` is observably mutated: after one call the caller's lot
reads `2 @ 1` instead of `10 @ 1`, and calling `compute_realized` again
with the very same structure yields gain 14 (2 matched shares plus a
zero-cost fallback for 6) instead of the first call's gain 8 — the two
runs disagree, contradicting the claimed non-observability. -/
theorem initial_lots_mutation_bug :
    callerView c6_lots (compute_realizedH [c6_sell] c6_lots [] none).heap =
      [("S", [{ qty := 2, cost := 1 }])] ∧
    callerView c6_lots (compute_realizedH [c6_sell] c6_lots [] none).heap ≠
      c6_lots ∧
    (compute_realizedH [c6_sell] c6_lots [] none).realized =
      [("S", { gain := 8, loss := 0 })] ∧
    (compute_realizedH [c6_sell]
        (callerView c6_lots (compute_realizedH [c6_sell] c6_lots [] none).heap)
        [] none).realized =
      [("S", { gain := 14, loss := 0 })] := by
  decide

/-- C4 counterexample input: two symbols with one tiny opening lot each. -/
def c4_lots : List (String × List Lot) :=
  [("A", [{ qty := 2 / 1000000000, cost := 0 }]),
   ("B", [{ qty := 2 / 1000000000, cost := 0 }])]

/-- C4 counterexample input: one sub-2e-9 sell of each symbol, each
leaving a 0.9e-9 residue that the engine pops and discards. -/
def c4_trades : List Trade :=
  [{ account_id := "A1", symbol := "A", name := none, currency := "HKD",
     trade_date := { year := 2024, month := 1, day := 1 }, side := "SELL",
     qty := 11 / 10000000000, price := 0, source := "t" },
   { account_id := "A1", symbol := "B", name := none, currency := "HKD",
     trade_date := { year := 2024, month := 1, day := 2 }, side := "SELL",
     qty := 11 / 10000000000, price := 0, source := "t" }]

/-!
## Section extraction (C9)
-/

theorem strFind_none_iff (needle : List Char) :
    ∀ hay : List Char,
      strFind hay needle = none ↔ ∀ j, ¬ needle <+: hay.drop j := by
  intro hay
  induction hay with
  | nil =>
    cases hp : needle.isPrefixOf ([] : List Char) with
    | true =>
      simp only [strFind, hp, if_true]
      constructor
      · intro h; simp at h
      · intro h
        exact absurd (List.isPrefixOf_iff_prefix.1 hp) (by simpa using h 0)
    | false =>
      simp only [strFind, hp, Bool.false_eq_true, if_false]
      have hnp : ¬ needle <+: ([] : List Char) := by
        intro hc
        rw [← List.isPrefixOf_iff_prefix, hp] at hc
        exact absurd hc (by simp)
      constructor
      · intro _ j
        simpa using hnp
      · intro _; trivial
  | cons c t ih =>
    cases hp : needle.isPrefixOf (c :: t) with
    | true =>
      simp only [strFind, hp, if_true]
      constructor
      · intro h; simp at h
      · intro h
        exact absurd (List.isPrefixOf_iff_prefix.1 hp) (by simpa using h 0)
    | false =>
      simp only [strFind, hp, Bool.false_eq_true, if_false]
      have hnp : ¬ needle <+: (c :: t) := by
        intro hc
        rw [← List.isPrefixOf_iff_prefix, hp] at hc
        exact absurd hc (by simp)
      rw [Option.map_eq_none', ih]
      constructor
      · intro h j
        cases j with
        | zero => simpa using hnp
        | succ k => simpa using h k
      · intro h j
        simpa using h (j + 1)

theorem strFind_some_iff (needle : List Char) :
    ∀ (hay : List Char) (i : Nat),
      strFind hay needle = some i ↔
        (needle <+: hay.drop i ∧ ∀ j, j < i → ¬ needle <+: hay.drop j) := by
  intro hay
  induction hay with
  | nil =>
    intro i
    cases hp : needle.isPrefixOf ([] : List Char) with
    | true =>
      simp only [strFind, hp, if_true]
      constructor
      · intro h
        obtain rfl : i = 0 := by simpa using h.symm
        exact ⟨by simpa using List.isPrefixOf_iff_prefix.1 hp,
          fun j hj => absurd hj (Nat.not_lt_zero j)⟩
      · rintro ⟨hpre, hmin⟩
        have hi : i = 0 := by
          by_contra hne
          exact hmin 0 (Nat.pos_of_ne_zero hne)
            (by simpa using List.isPrefixOf_iff_prefix.1 hp)
        rw [hi]
    | false =>
      simp only [strFind, hp, Bool.false_eq_true, if_false]
      have hnp : ¬ needle <+: ([] : List Char) := by
        intro hc
        rw [← List.isPrefixOf_iff_prefix, hp] at hc
        exact absurd hc (by simp)
      constructor
      · intro h; simp at h
      · rintro ⟨hpre, _⟩
        exact absurd (by simpa using hpre) hnp
  | cons c t ih =>
    intro i
    cases hp : needle.isPrefixOf (c :: t) with
    | true =>
      simp only [strFind, hp, if_true]
      constructor
      · intro h
        obtain rfl : i = 0 := by simpa using h.symm
        exact ⟨by simpa using List.isPrefixOf_iff_prefix.1 hp,
          fun j hj => absurd hj (Nat.not_lt_zero j)⟩
      · rintro ⟨hpre, hmin⟩
        have hi : i = 0 := by
          by_contra hne
          exact hmin 0 (Nat.pos_of_ne_zero hne)
            (by simpa using List.isPrefixOf_iff_prefix.1 hp)
        rw [hi]
    | false =>
      simp only [strFind, hp, Bool.false_eq_true, if_false]
      have hnp : ¬ needle <+: (c :: t) := by
        intro hc
        rw [← List.isPrefixOf_iff_prefix, hp] at hc
        exact absurd hc (by simp)
      rw [Option.map_eq_some']
      constructor
      · rintro ⟨a, ha, rfl⟩
        obtain ⟨h1, h2⟩ := (ih a).1 ha
        refine ⟨by simpa using h1, ?_⟩
        intro j hj
        cases j with
        | zero => simpa using hnp
        | succ k =>
          have hk : k < a := by omega
          simpa using h2 k hk
      · rintro ⟨hpre, hmin⟩
        cases i with
        | zero => exact absurd (by simpa using hpre) hnp
        | succ a =>
          refine ⟨a, (ih a).2 ⟨by simpa using hpre, ?_⟩, rfl⟩
          intro k hk
          simpa using hmin (k + 1) (by omega)

/-- The `end_idx` computation of `_extract_section_lines`
(`src/app/parser.py` lines 76-80): fold `min` over the first occurrence
of each end marker, starting from the length of the remaining text. -/
def endIdxFold (sub : List Char) (ends : List (List Char)) (a : Nat) : Nat :=
  ends.foldl
    (fun e m =>
      match strFind sub m with
      | some idx => min e idx
      | none => e) a

theorem extract_eq_endIdxFold (text start_marker : List Char)
    (ends : List (List Char)) :
    _extract_section_lines text start_marker ends =
      match strFind text start_marker with
      | none => []
      | some i =>
        ((pySplitlines ((text.drop (i + start_marker.length)).take
            (endIdxFold (text.drop (i + start_marker.length)) ends
              (text.drop (i + start_marker.length)).length))).map
          pyStrip).filter (fun l => !l.isEmpty) := by
  rfl

theorem endIdxFold_spec (sub : List Char) :
    ∀ (ends : List (List Char)) (a : Nat),
      (endIdxFold sub ends a = a ∨
        ∃ m ∈ ends, strFind sub m = some (endIdxFold sub ends a)) ∧
      endIdxFold sub ends a ≤ a ∧
      (∀ m ∈ ends, ∀ j, strFind sub m = some j → endIdxFold sub ends a ≤ j) := by
  intro ends
  induction ends with
  | nil =>
    intro a
    exact ⟨Or.inl rfl, le_refl a,
      fun m hm => absurd hm (List.not_mem_nil m)⟩
  | cons m ms ih =>
    intro a
    cases hf : strFind sub m with
    | none =>
      have hstep : endIdxFold sub (m :: ms) a = endIdxFold sub ms a := by
        simp [endIdxFold, hf]
      obtain ⟨i1, i2, i3⟩ := ih a
      refine ⟨?_, hstep ▸ i2, ?_⟩
      · rcases i1 with h | ⟨m2, hm2, he⟩
        · exact Or.inl (hstep.trans h)
        · exact Or.inr ⟨m2, List.mem_cons_of_mem m hm2, hstep ▸ he⟩
      · intro m2 hm2 j hj
        rcases List.mem_cons.1 hm2 with rfl | hm3
        · rw [hf] at hj; exact absurd hj (by simp)
        · exact hstep ▸ i3 m2 hm3 j hj
    | some idx =>
      have hstep : endIdxFold sub (m :: ms) a = endIdxFold sub ms (min a idx) := by
        simp [endIdxFold, hf]
      obtain ⟨i1, i2, i3⟩ := ih (min a idx)
      refine ⟨?_, ?_, ?_⟩
      · rcases i1 with h | ⟨m2, hm2, he⟩
        · rcases le_total a idx with hle | hle
          · exact Or.inl (by rw [hstep, h, min_eq_left hle])
          · refine Or.inr ⟨m, List.mem_cons_self m ms, ?_⟩
            rw [hstep, h, min_eq_right hle]
            exact hf
        · exact Or.inr ⟨m2, List.mem_cons_of_mem m hm2, hstep ▸ he⟩
      · rw [hstep]
        exact le_trans i2 (min_le_left a idx)
      · intro m2 hm2 j hj
        rcases List.mem_cons.1 hm2 with rfl | hm3
        · obtain rfl : idx = j := by
            rw [hf] at hj
            simpa using hj
          rw [hstep]
          exact le_trans i2 (min_le_right a idx)
        · exact hstep ▸ i3 m2 hm3 j hj

/-- C9: `_extract_section_lines` returns the trimmed non-empty lines of
the text strictly between the end of the first occurrence of the start
marker and the nearest (minimum-index) following occurrence of any end
marker — or the end of the text when no end marker occurs after the
start — and returns the empty list, without failing, when the start
marker does not occur at all. -/
theorem extract_section_spec (text start_marker : List Char)
    (ends : List (List Char)) :
    ((∀ j, ¬ start_marker <+: text.drop j) →
      _extract_section_lines text start_marker ends = []) ∧
    (∀ i, start_marker <+: text.drop i →
      (∀ j, j < i → ¬ start_marker <+: text.drop j) →
      (endIdxFold (text.drop (i + start_marker.length)) ends
          (text.drop (i + start_marker.length)).length =
            (text.drop (i + start_marker.length)).length ∨
        ∃ m ∈ ends, m <+:
          (text.drop (i + start_marker.length)).drop
            (endIdxFold (text.drop (i + start_marker.length)) ends
              (text.drop (i + start_marker.length)).length)) ∧
      (∀ k (m : List Char), m ∈ ends →
        m <+: (text.drop (i + start_marker.length)).drop k →
        endIdxFold (text.drop (i + start_marker.length)) ends
          (text.drop (i + start_marker.length)).length ≤ k) ∧
      endIdxFold (text.drop (i + start_marker.length)) ends
          (text.drop (i + start_marker.length)).length ≤
        (text.drop (i + start_marker.length)).length ∧
      _extract_section_lines text start_marker ends =
        ((pySplitlines ((text.drop (i + start_marker.length)).take
            (endIdxFold (text.drop (i + start_marker.length)) ends
              (text.drop (i + start_marker.length)).length))).map
          pyStrip).filter (fun l => !l.isEmpty)) := by
  constructor
  · intro h
    have hnone : strFind text start_marker = none :=
      (strFind_none_iff start_marker text).2 h
    rw [extract_eq_endIdxFold, hnone]
  · intro i hpre hmin
    have hsome : strFind text start_marker = some i :=
      (strFind_some_iff start_marker text i).2 ⟨hpre, hmin⟩
    obtain ⟨s1, s2, s3⟩ := endIdxFold_spec
      (text.drop (i + start_marker.length)) ends
      (text.drop (i + start_marker.length)).length
    refine ⟨?_, ?_, s2, ?_⟩
    · rcases s1 with h | ⟨m, hm, he⟩
      · exact Or.inl h
      · exact Or.inr ⟨m, hm,
          ((strFind_some_iff m (text.drop (i + start_marker.length)) _).1
            he).1⟩
    · intro k m hm hocc
      have hex : strFind (text.drop (i + start_marker.length)) m ≠ none := by
        intro hn
        exact absurd hocc
          ((strFind_none_iff m (text.drop (i + start_marker.length))).1 hn k)
      obtain ⟨j, hj⟩ := Option.ne_none_iff_exists'.1 hex
      have hjk : j ≤ k := by
        by_contra hgt
        obtain ⟨_, hmin2⟩ :=
          (strFind_some_iff m (text.drop (i + start_marker.length)) j).1 hj
        exact hmin2 k (by omega) hocc
      exact le_trans (s3 m hm j hj) hjk
    · rw [extract_eq_endIdxFold, hsome]

/-- C9 witness text: `xxBEGINaaa␊ bb ␊ENDzz`. -/
def c9_text : List Char := "xxBEGINaaa\n bb \nENDzz".toList

/-- Witness for `extract_section_spec` at a concrete statement text:
the first occurrence of `BEGIN` is at index 2, the section runs to the
`END` occurrence, and the extracted lines are the trimmed non-empty
lines in between. -/
theorem extract_section_spec_witness :
    _extract_section_lines c9_text ("BEGIN".toList) [("END".toList)] =
      ((pySplitlines ((c9_text.drop (2 + ("BEGIN".toList).length)).take
          (endIdxFold (c9_text.drop (2 + ("BEGIN".toList).length))
            [("END".toList)]
            (c9_text.drop (2 + ("BEGIN".toList).length)).length))).map
        pyStrip).filter (fun l => !l.isEmpty) ∧
    _extract_section_lines c9_text ("BEGIN".toList) [("END".toList)] =
      [("aaa".toList), ("bb".toList)] :=
  ⟨((extract_section_spec c9_text ("BEGIN".toList) [("END".toList)]).2 2
      (by decide) (by decide)).2.2.2,
   by decide⟩

/-!
## Parser trade invariants (C7)
-/

/-- The (amended) record invariant of emitted trades: nonnegative
quantity, canonical side, recognized currency. -/
def TradeInv (t : Trade) : Prop :=
  0 ≤ t.qty ∧ (t.side = "BUY" ∨ t.side = "SELL") ∧
  t.currency ∈ (["HKD", "USD", "CNH", "JPY", "SGD"] : List String)

theorem huataiSideMap_values (s : List Char) (v : String)
    (h : huataiSideMap s = some v) : v = "BUY" ∨ v = "SELL" := by
  unfold huataiSideMap at h
  split at h
  · exact Or.inl (Option.some.inj h).symm
  · split at h
    · exact Or.inr (Option.some.inj h).symm
    · exact absurd h (by simp)

theorem infer_currency_values (code : List Char) (c : String)
    (h : _infer_currency_from_code code = some c) : c = "HKD" ∨ c = "USD" := by
  unfold _infer_currency_from_code at h
  split at h
  · exact Or.inl (Option.some.inj h).symm
  · split at h
    · exact Or.inr (Option.some.inj h).symm
    · exact absurd h (by simp)

theorem huataiTradeParts_inv (acct : String) (parts : List (List Char))
    (t : Trade) (h : huataiTradeParts acct parts = some t) : TradeInv t := by
  unfold huataiTradeParts at h
  split at h
  · exact Option.noConfusion h
  · split at h
    · exact Option.noConfusion h
    case h_2 settle hsettle =>
      split at h
      · exact Option.noConfusion h
      case h_2 price hprice =>
        split at h
        · exact Option.noConfusion h
        case h_2 qty hqty =>
          split at h
          · exact Option.noConfusion h
          case h_2 currency hcur =>
            split at h
            · exact Option.noConfusion h
            · split at h
              · exact Option.noConfusion h
              case h_2 side hside =>
                obtain rfl := Option.some.inj h
                refine ⟨abs_nonneg qty, huataiSideMap_values _ _ hside, ?_⟩
                rcases infer_currency_values _ _ hcur with rfl | rfl <;> simp

theorem huataiTradeLine_inv (acct : String) (line : List Char) (t : Trade)
    (h : huataiTradeLine acct line = some t) : TradeInv t := by
  unfold huataiTradeLine at h
  split at h
  · exact Option.noConfusion h
  · exact huataiTradeParts_inv acct (pySplit line) t h

theorem huataiLoop2Groups_inv (acct : String) (g : HuataiGroups2) (t : Trade)
    (h : huataiLoop2Groups acct g = some t) : TradeInv t := by
  unfold huataiLoop2Groups at h
  split at h
  · exact Option.noConfusion h
  case h_2 td htd =>
    split at h
    · exact Option.noConfusion h
    case h_2 currency hcur =>
      split at h
      · exact Option.noConfusion h
      case h_2 price hprice =>
        split at h
        · exact Option.noConfusion h
        case h_2 qty hqty =>
          obtain rfl := Option.some.inj h
          refine ⟨abs_nonneg qty, ?_, ?_⟩
          · by_cases hs : g.side = "买入".toList ∨ g.side = "买入开仓".toList
            · left
              simp only [hs, if_true]
            · right
              simp only [hs, if_false]
          · rcases infer_currency_values _ _ hcur with rfl | rfl <;> simp

theorem huataiLoop2Line_inv (m2 : List Char → Option HuataiGroups2)
    (acct : String) (line : List Char) (t : Trade)
    (h : huataiLoop2Line m2 acct line = some t) : TradeInv t := by
  unfold huataiLoop2Line at h
  split at h
  · exact Option.noConfusion h
  · split at h
    · exact Option.noConfusion h
    case h_2 g hg => exact huataiLoop2Groups_inv acct g t h

theorem huataiLoop3Groups_inv (acct : String) (g : HuataiGroups3) (t : Trade)
    (h : huataiLoop3Groups acct g = some t) : TradeInv t := by
  unfold huataiLoop3Groups at h
  split at h
  · exact Option.noConfusion h
  case h_2 td htd =>
    split at h
    · exact Option.noConfusion h
    case h_2 price hprice =>
      split at h
      · exact Option.noConfusion h
      case h_2 qty hqty =>
        obtain rfl := Option.some.inj h
        exact ⟨abs_nonneg qty, Or.inl rfl, by simp⟩

theorem huataiLoop3Line_inv (m3 : List Char → Option HuataiGroups3)
    (acct : String) (line : List Char) (t : Trade)
    (h : huataiLoop3Line m3 acct line = some t) : TradeInv t := by
  unfold huataiLoop3Line at h
  split at h
  · exact Option.noConfusion h
  · split at h
    · exact Option.noConfusion h
    · split at h
      · exact Option.noConfusion h
      case h_2 g hg => exact huataiLoop3Groups_inv acct g t h

/-- The side state of the Futu scanner only ever holds `BUY`/`SELL`. -/
def CsdOk (csd : Option (List Char)) : Prop :=
  csd = none ∨ csd = some ("BUY".toList) ∨ csd = some ("SELL".toList)

theorem futuRowTrade_inv (optLike : List Char → Bool) (acct : String)
    (sym : List Char) (cn csd : Option (List Char)) (row : FutuRow)
    (t : Trade)
    (hcsd : csd = some ("BUY".toList) ∨ csd = some ("SELL".toList))
    (hcur : String.mk row.currency ∈
      (["HKD", "USD", "CNH", "JPY", "SGD"] : List String))
    (h : futuRowTrade optLike acct sym cn csd row = some t) : TradeInv t := by
  unfold futuRowTrade at h
  split at h
  · exact Option.noConfusion h
  · split at h
    · exact Option.noConfusion h
    case h_2 td htd =>
      split at h
      · exact Option.noConfusion h
      case h_2 qty hqty =>
        split at h
        · exact Option.noConfusion h
        case h_2 price hprice =>
          obtain rfl := Option.some.inj h
          refine ⟨abs_nonneg qty, ?_, hcur⟩
          rcases hcsd with hc | hc
          · left
            rw [hc]
            rfl
          · right
            rw [hc]
            rfl

theorem futuStep_csd (hm pm : List Char → Option FutuHeader)
    (rm : List Char → Option FutuRow) (optLike : List Char → Bool)
    (acct : String) (st : FutuState) (line : List Char)
    (h : CsdOk st.csd) :
    CsdOk (futuStep hm pm rm optLike acct st line).1.csd := by
  unfold futuStep
  have hok : ∀ b : List Char,
      CsdOk (some (if b = "買入".toList then "BUY".toList
        else "SELL".toList)) := by
    intro b
    by_cases hb : b = "買入".toList
    · exact Or.inr (Or.inl (by rw [if_pos hb]))
    · exact Or.inr (Or.inr (by rw [if_neg hb]))
  split
  · exact Or.inl rfl
  · split
    · exact Or.inl rfl
    · split
      · exact h
      · split
        · exact hok _
        · split
          · exact hok _
          · split
            · exact h
            · split
              · exact h
              · exact h

theorem futuStep_trade (hm pm : List Char → Option FutuHeader)
    (rm : List Char → Option FutuRow) (optLike : List Char → Bool)
    (acct : String) (st : FutuState) (line : List Char) (t : Trade)
    (hrow : ∀ l g, rm l = some g →
      String.mk g.currency ∈ (["HKD", "USD", "CNH", "JPY", "SGD"] : List String))
    (hcsd : CsdOk st.csd)
    (h : (futuStep hm pm rm optLike acct st line).2 = some t) : TradeInv t := by
  unfold futuStep at h
  split at h
  · exact Option.noConfusion h
  · split at h
    · exact Option.noConfusion h
    · split at h
      · exact Option.noConfusion h
      · split at h
        · exact Option.noConfusion h
        · split at h
          · exact Option.noConfusion h
          · split at h
            · exact Option.noConfusion h
            case h_2 row hrm =>
              split at h
              case isTrue htru =>
                have hne : st.csd ≠ none := by
                  intro hc
                  rw [hc] at htru
                  simp [optTruthy] at htru
                refine futuRowTrade_inv optLike acct (st.cs.getD []) st.cn
                  st.csd row t ?_ (hrow line row hrm) h
                rcases hcsd with hc | hc | hc
                · exact absurd hc hne
                · exact Or.inl hc
                · exact Or.inr hc
              case isFalse => exact Option.noConfusion h

theorem futuScan_inv (hm pm : List Char → Option FutuHeader)
    (rm : List Char → Option FutuRow) (optLike : List Char → Bool)
    (acct : String)
    (hrow : ∀ l g, rm l = some g →
      String.mk g.currency ∈ (["HKD", "USD", "CNH", "JPY", "SGD"] : List String)) :
    ∀ (lines : List (List Char)) (st : FutuState), CsdOk st.csd →
      ∀ t ∈ futuScan hm pm rm optLike acct st lines, TradeInv t := by
  intro lines
  induction lines with
  | nil =>
    intro st _ t ht
    simp only [futuScan] at ht
    exact absurd ht (List.not_mem_nil t)
  | cons line rest ih =>
    intro st hcsd t ht
    simp only [futuScan] at ht
    rcases hq : futuStep hm pm rm optLike acct st line with ⟨st2, opt⟩
    rw [hq] at ht
    have hcsd2 : CsdOk st2.csd := by
      have h2 := futuStep_csd hm pm rm optLike acct st line hcsd
      rw [hq] at h2
      exact h2
    cases opt with
    | none => exact ih st2 hcsd2 t ht
    | some u =>
      have ht2 : t ∈ u :: futuScan hm pm rm optLike acct st2 rest := ht
      rcases List.mem_cons.1 ht2 with rfl | hmem
      · refine futuStep_trade hm pm rm optLike acct st line t hrow hcsd ?_
        rw [hq]
      · exact ih st2 hcsd2 t hmem

/-- C7 (amended): every `Trade` emitted by the Huatai or Futu
interpreter — for any behaviour whatsoever of the external regex
matchers, constrained only by the fact the row pattern's currency group
is one of its five literal alternatives — has *nonnegative* quantity
(`abs` is applied, but zero is not rejected), side exactly `BUY` or
`SELL`, and a recognized currency code. -/
theorem parser_trade_invariants
    (m2 : List Char → Option HuataiGroups2)
    (m3 : List Char → Option HuataiGroups3)
    (hm pm : List Char → Option FutuHeader) (rm : List Char → Option FutuRow)
    (wd optLike : List Char → Bool) (acct1 acct2 : String)
    (text1 text2 : List Char)
    (hrow : ∀ l g, rm l = some g →
      String.mk g.currency ∈
        (["HKD", "USD", "CNH", "JPY", "SGD"] : List String)) :
    (∀ t ∈ huataiTrades m2 m3 acct1 text1, TradeInv t) ∧
    (∀ t ∈ futuTrades hm pm rm wd optLike acct2 text2, TradeInv t) := by
  constructor
  · intro t ht
    simp only [huataiTrades] at ht
    rcases List.mem_append.1 ht with h12 | h3
    · rcases List.mem_append.1 h12 with h1 | h2
      · obtain ⟨line, _, hline⟩ := List.mem_filterMap.1 h1
        exact huataiTradeLine_inv acct1 line t hline
      · obtain ⟨line, _, hline⟩ := List.mem_filterMap.1 h2
        exact huataiLoop2Line_inv m2 acct1 line t hline
    · obtain ⟨line, _, hline⟩ := List.mem_filterMap.1 h3
      exact huataiLoop3Line_inv m3 acct1 line t hline
  · intro t ht
    simp only [futuTrades] at ht
    exact futuScan_inv hm pm rm optLike acct2 hrow _ _ (Or.inl rfl) t ht

/-- C7 concrete matcher instances: the account-activity and IPO patterns
match nothing (the counterexample text has no such section anyway). -/
def c7_m2none : List Char → Option HuataiGroups2 := fun _ => none

/-- See `c7_m2none`. -/
def c7_m3none : List Char → Option HuataiGroups3 := fun _ => none

/-- C7 counterexample statement text: one well-formed trade-confirmation
line whose quantity column is `0`. -/
def c7_text : List Char :=
  "成交单据\n123456789 2024-01-02 买入 0005:HK 50 0 a b c\n".toList

/-- The trade `parse_huatai` emits for `c7_text`. -/
def c7_trade : Trade :=
  { account_id := "HTSC-UNKNOWN", symbol := "0005", name := none,
    currency := "HKD",
    trade_date := { year := 2024, month := 1, day := 2 }, side := "BUY",
    qty := 0, price := 50, source := "成交单据:123456789" }

/-- C7 counterexample: a statement line with quantity token `0` passes
every validity check of the first Huatai pass (`abs(0) = 0` is not
rejected), so the interpreter emits a `Trade` with `qty = 0`, violating
the claimed invariant `quantity > 0`. -/
theorem parser_qty_zero_counterexample :
    huataiTrades c7_m2none c7_m3none ("HTSC-UNKNOWN") c7_text = [c7_trade] ∧
    ¬ (0 < c7_trade.qty) := by
  decide

/-- See `c7_m2none`: Futu matchers for the witness instantiation. -/
def c7_hmnone : List Char → Option FutuHeader := fun _ => none

/-- See `c7_m2none`. -/
def c7_rmnone : List Char → Option FutuRow := fun _ => none

/-- See `c7_m2none`. -/
def c7_wdfalse : List Char → Bool := fun _ => false

/-- Witness for `parser_trade_invariants`: the concrete emitted trade of
`c7_text` satisfies the amended invariant. -/
theorem parser_trade_invariants_witness : TradeInv c7_trade :=
  (parser_trade_invariants c7_m2none c7_m3none c7_hmnone c7_hmnone
      c7_rmnone c7_wdfalse c7_wdfalse ("HTSC-UNKNOWN") ("FUTU-UNKNOWN")
      c7_text [] (fun _ _ h => Option.noConfusion h)).1
    c7_trade (by decide)

/-- C4 counterexample: each of the two sells consumes `1.1e-9` shares and
pops its lot with a `0.9e-9` residue (below the `1e-9` epsilon), so
buys + seeds − final open quantity exceeds the total consumed quantity by
`1.8e-9 > 1e-9`: lot quantity is *not* conserved within a single epsilon. -/
theorem lot_conservation_counterexample :
    eps <
      |(totalBuys c4_trades + totalPos c4_lots -
          totalPos (compute_realized c4_trades c4_lots [] none).positions) -
        (compute_realized c4_trades c4_lots [] none).consumed| := by
  decide

end TaxApp
